import Mathlib

/-!
A verification development for the `polaris-data-table-views` repository.

The TypeScript sources are shallowly embedded in Lean:
* JavaScript runtime values stored in a record field are modelled by `JSValue`
  (JS numbers are modelled as integers, which covers every value the claims
  exercise; floating point is not needed by any claim).
* records (objects) are modelled as association lists from keys to values,
  reading a missing key yields `JSValue.undefVal`, as in JavaScript;
* `URLSearchParams` is modelled as a list of key/value pairs with the
  `get` / `set` / `delete` / iteration-in-order semantics of the platform class;
* platform built-ins that the code delegates to (`encodeURIComponent`,
  `decodeURIComponent`, `JSON.parse`, `JSON.stringify`, `localeCompare`,
  `Date` parsing) are parameters of the embedded functions; concrete
  executable models of them are provided for evaluating theorems on
  concrete inputs;
* `Array.prototype.sort` (stable since ES2019) is modelled by a stable
  insertion sort driven by the comparator;
* `Array.prototype.slice` is modelled including its negative-index semantics.
-/

namespace PolarisListTable

/-- JavaScript runtime values that can sit in a record field. -/
inductive JSValue where
  | str : String → JSValue
  | num : Int → JSValue
  | bool : Bool → JSValue
  | null : JSValue
  | undefVal : JSValue
deriving DecidableEq, Repr

/-- `FilterValue` from `src/types.ts`: `string | string[] | number | boolean | undefined`
(the code additionally guards against `null` at runtime, so `null` is included). -/
inductive FilterValue where
  | str : String → FilterValue
  | arr : List String → FilterValue
  | num : Int → FilterValue
  | bool : Bool → FilterValue
  | null : FilterValue
  | undefVal : FilterValue
deriving DecidableEq, Repr

/-- Sort direction, `"asc" | "desc"` from `src/types.ts`. -/
inductive Direction where
  | asc : Direction
  | desc : Direction
deriving DecidableEq, Repr

/-- `SortDefinition` from `src/types.ts`. -/
structure SortDefinition where
  field : String
  direction : Direction
deriving DecidableEq, Repr

/-- The string form of a direction, as it appears in URL tokens. -/
def Direction.toStr : Direction → String
  | .asc => "asc"
  | .desc => "desc"

/-- A record (JS object) held in a data table: an association list of fields.
Reading an absent field yields `JSValue.undefVal` as in JavaScript. -/
abbrev Item : Type := List (String × JSValue)

/-- `item[key]` — JS property read, `undefined` when the key is absent. -/
def getField (item : Item) (key : String) : JSValue :=
  (item.lookup key).getD .undefVal

/-- JS truthiness of a `JSValue` (`""`, `0`, `false`, `null`, `undefined` are falsy). -/
def jsTruthy : JSValue → Bool
  | .str s => decide (s ≠ "")
  | .num n => decide (n ≠ 0)
  | .bool b => b
  | .null => false
  | .undefVal => false

/-- `v || ""` as used by the filter code. -/
def jsOrEmptyStr (v : JSValue) : JSValue :=
  if jsTruthy v then v else .str ""

/-- Decimal digits of a natural number, most significant first, with fuel
(`fuel > n` always suffices since the recursion divides by ten). -/
def natDigitsAux : Nat → Nat → List Char
  | 0, _ => []
  | fuel + 1, n =>
    if n < 10 then [Nat.digitChar n]
    else natDigitsAux fuel (n / 10) ++ [Nat.digitChar (n % 10)]

/-- Decimal digits of a natural number, most significant first (JS `String(n)`). -/
def natDigits (n : Nat) : List Char := natDigitsAux (n + 1) n

/-- JS `String(n)` for a natural number. -/
def natToString (n : Nat) : String := ⟨natDigits n⟩

/-- JS `String(n)` for an integer. -/
def intToString (n : Int) : String :=
  if n < 0 then "-" ++ natToString (-n).toNat else natToString n.toNat

/-- JS `String(v)` on a record field value. -/
def jsToString : JSValue → String
  | .str s => s
  | .num n => intToString n
  | .bool true => "true"
  | .bool false => "false"
  | .null => "null"
  | .undefVal => "undefined"

/-- `String.prototype.toLowerCase` (ASCII case mapping suffices for the claims). -/
def lowerStr (s : String) : String := ⟨s.data.map Char.toLower⟩

/-- Occurrence of `needle` as a contiguous run inside a character list. -/
def includesL (needle : List Char) : List Char → Bool
  | [] => needle.isEmpty
  | c :: cs => needle.isPrefixOf (c :: cs) || includesL needle cs

/-- `hay.includes(needle)` — JS substring containment. -/
def strIncludes (hay needle : String) : Bool := includesL needle.data hay.data

/-- `isEmptyFilter` from `src/unnamed/part_006`
(`undefined`, `null`, `""` and the empty array are empty). -/
def isEmptyFilter : FilterValue → Bool
  | .undefVal => true
  | .null => true
  | .str s => decide (s = "")
  | .arr l => l.isEmpty
  | _ => false

/-- `areFiltersEmpty` from `src/unnamed/part_006`. -/
def areFiltersEmpty (filters : List (String × FilterValue)) : Bool :=
  filters.all (fun kv => isEmptyFilter kv.2)

/-- `cleanFilters` from `src/unnamed/part_006`: keep the non-empty entries, in order. -/
def cleanFilters (filters : List (String × FilterValue)) :
    List (String × FilterValue) :=
  filters.filter (fun kv => !isEmptyFilter kv.2)

/-- JS object property write: replace in place when present, append when fresh. -/
def objSet : List (String × FilterValue) → String → FilterValue →
    List (String × FilterValue)
  | [], k, v => [(k, v)]
  | p :: rest, k, v =>
    if p.1 = k then (k, v) :: rest else p :: objSet rest k v

/-! ## The local filter/sort/paginate engine, `filterItemsLocally` (src/unnamed/part_006) -/

/-- The free-text query step of `filterItemsLocally`:
`String(item[queryKey] || "").toLowerCase().includes(queryValue.toLowerCase())`,
only applied when `queryValue` is truthy (non-empty). -/
def queryStep (queryKey queryValue : String) (items : List Item) : List Item :=
  if queryValue = "" then items
  else
    let lowerQuery := lowerStr queryValue
    items.filter (fun item =>
      strIncludes (lowerStr (jsToString (jsOrEmptyStr (getField item queryKey))))
        lowerQuery)

/-- One field-filter predicate of `filterItemsLocally`: array membership
(`value.includes(itemValue)`, strict equality per element), case-insensitive
substring for strings, strict equality for numbers and booleans, and the
`return true` fall-through for the remaining cases. -/
def matchesFilter (value : FilterValue) (itemValue : JSValue) : Bool :=
  match value with
  | .arr l =>
    match itemValue with
    | .str s => l.contains s
    | _ => false
  | .str t =>
    strIncludes (lowerStr (jsToString (jsOrEmptyStr itemValue))) (lowerStr t)
  | .num n => itemValue == .num n
  | .bool b => itemValue == .bool b
  | .null => true
  | .undefVal => true

/-- The field-filter loop of `filterItemsLocally`: empty filter entries are
skipped, the rest narrow the list in entry order. -/
def applyFieldFilters (filters : List (String × FilterValue)) (items : List Item) :
    List Item :=
  filters.foldl
    (fun acc kv =>
      if isEmptyFilter kv.2 then acc
      else acc.filter (fun item => matchesFilter kv.2 (getField item kv.1)))
    items

/-- The comparator of the sort step of `filterItemsLocally`, branch for branch:
both missing → 0; a missing value sorts last ascending / first descending;
`createdAt` / `updatedAt` compare by parsed timestamp (`dateParse` models
`new Date(v).getTime()`); string pairs by `localeCmp` (models
`String.prototype.localeCompare`); number pairs by difference; anything else 0. -/
def sortCompare (localeCmp : String → String → Int) (dateParse : JSValue → Int)
    (field : String) (isAsc : Bool) (a b : Item) : Int :=
  let aVal := getField a field
  let bVal := getField b field
  if aVal = .undefVal ∧ bVal = .undefVal then 0
  else if aVal = .undefVal then (if isAsc then 1 else -1)
  else if bVal = .undefVal then (if isAsc then -1 else 1)
  else if field = "createdAt" ∨ field = "updatedAt" then
    let aTime := dateParse aVal
    let bTime := dateParse bVal
    if isAsc then aTime - bTime else bTime - aTime
  else
    match aVal, bVal with
    | .str sa, .str sb => if isAsc then localeCmp sa sb else localeCmp sb sa
    | .num na, .num nb => if isAsc then na - nb else nb - na
    | _, _ => 0

/-- Stable insertion of `x` into `l` for a JS comparator `c`: `x` is placed
before the first element it does not compare strictly after, so that elements
comparing equal keep their original relative order. -/
def jsInsert (c : α → α → Int) (x : α) : List α → List α
  | [] => [x]
  | y :: ys => if c x y ≤ 0 then x :: y :: ys else y :: jsInsert c x ys

/-- `Array.prototype.sort(c)` — stable sort by the comparator `c`
(stable per ES2019), modelled by stable insertion sort. -/
def jsSort (c : α → α → Int) : List α → List α
  | [] => []
  | x :: xs => jsInsert c x (jsSort c xs)

/-- `Array.prototype.slice(s, e)` including the negative-index semantics. -/
def jsSlice (l : List α) (s e : Int) : List α :=
  let len : Int := l.length
  let s' := if s < 0 then max (len + s) 0 else min s len
  let e' := if e < 0 then max (len + e) 0 else min e len
  (l.drop s'.toNat).take (e' - s').toNat

/-- The `options` argument of `filterItemsLocally`. -/
structure LocalOptions where
  queryKey : String
  queryValue : String
  filters : List (String × FilterValue)
  sort : Option SortDefinition
  page : Int
  limit : Int

/-- The query, field-filter and sort steps of `filterItemsLocally`, in order,
before pagination. -/
def localPipeline (localeCmp : String → String → Int) (dateParse : JSValue → Int)
    (items : List Item) (o : LocalOptions) : List Item :=
  let afterQuery := queryStep o.queryKey o.queryValue items
  let afterFilters := applyFieldFilters o.filters afterQuery
  match o.sort with
  | some s =>
    jsSort (sortCompare localeCmp dateParse s.field (s.direction == .asc)) afterFilters
  | none => afterFilters

/-- The result shape `{ items, total }` of `filterItemsLocally`. -/
structure LocalResult where
  items : List Item
  total : Nat
deriving DecidableEq

/-- `filterItemsLocally` from `src/unnamed/part_006`: query filter, field
filters, sort, then `total = filtered.length` and the page slice
`filtered.slice((page - 1) * limit, (page - 1) * limit + limit)`. -/
def filterItemsLocally (localeCmp : String → String → Int) (dateParse : JSValue → Int)
    (items : List Item) (o : LocalOptions) : LocalResult :=
  let sorted := localPipeline localeCmp dateParse items o
  let total := sorted.length
  let startIndex := (o.page - 1) * o.limit
  { items := jsSlice sorted startIndex (startIndex + o.limit), total := total }

/-! ## The two `usePagination` variants (src/src/hooks/usePagination.ts) -/

/-- `Math.ceil(total / limit)` for natural `total` and positive `limit`. -/
def jsCeilDiv (total limit : Nat) : Nat := (total + limit - 1) / limit

/-- `totalPages` of the first `usePagination` variant: `Math.ceil(total / limit)`. -/
def totalPages1 (limit total : Nat) : Nat := jsCeilDiv total limit

/-- `totalPages` of the second `usePagination` variant:
`Math.ceil(total / limit) || 1` (the `|| 1` turns a falsy 0 into 1). -/
def totalPages2 (limit total : Nat) : Nat :=
  if jsCeilDiv total limit = 0 then 1 else jsCeilDiv total limit

/-- `hasPrevious` — identical in both variants. -/
def hasPreviousP (page : Nat) : Bool := decide (1 < page)

/-- `hasNext` of the first variant: `page < totalPages` with its `totalPages`. -/
def hasNext1 (page limit total : Nat) : Bool := decide (page < totalPages1 limit total)

/-- `hasNext` of the second variant: `page < totalPages` with its `totalPages`. -/
def hasNext2 (page limit total : Nat) : Bool := decide (page < totalPages2 limit total)

/-- The pagination range label shared by both variants for `total ≠ 0`:
`"<start>-<end> of <total>"` with `start = (page-1)*limit + 1` and
`end = min(page*limit, total)`. -/
def rangeLabel (page limit total : Nat) : String :=
  natToString ((page - 1) * limit + 1) ++ "-" ++
    natToString (min (page * limit) total) ++ " of " ++ natToString total

/-- `label` of the first variant (`''` when `total = 0`). -/
def label1 (page limit total : Nat) : String :=
  if total = 0 then "" else rangeLabel page limit total

/-- `label` of the second variant (`"0 results"` when `total = 0`). -/
def label2 (page limit total : Nat) : String :=
  if total = 0 then "0 results" else rangeLabel page limit total

/-- `goToPage` of the first variant: invoke `onPageChange(newPage)` only when
`1 ≤ newPage ≤ totalPages`; the returned option is the invoked argument. -/
def goToPage1 (limit total : Nat) (newPage : Int) : Option Int :=
  if 1 ≤ newPage ∧ newPage ≤ (totalPages1 limit total : Int) then some newPage
  else none

/-- `goToPage` of the second variant: always invoke `onPageChange` with
`Math.max(1, Math.min(newPage, totalPages))`. -/
def goToPage2 (limit total : Nat) (newPage : Int) : Option Int :=
  some (max 1 (min newPage (totalPages2 limit total : Int)))

/-! ## The `useDataSource` query state and its setters (src/src/hooks/usePagination.ts) -/

/-- `ViewDefinition` from `src/types.ts` (the fields the setters touch). -/
structure ViewDefinition where
  name : String
  filters : List (String × FilterValue)
deriving DecidableEq

/-- `QueryState` from `src/types.ts`. -/
structure QueryState where
  page : Int
  limit : Int
  queryValue : String
  filters : List (String × FilterValue)
  sort : Option SortDefinition
  selectedView : Nat
deriving DecidableEq

/-- `setPage` of `useDataSource`. -/
def setPage (s : QueryState) (page : Int) : QueryState := { s with page := page }

/-- `setQueryValue` of `useDataSource`: stores the value and resets `page` to 1. -/
def setQueryValue (s : QueryState) (queryValue : String) : QueryState :=
  { s with queryValue := queryValue, page := 1 }

/-- `setFilter` of `useDataSource`: merges one filter entry and resets `page` to 1. -/
def setFilter (s : QueryState) (key : String) (value : FilterValue) : QueryState :=
  { s with filters := objSet s.filters key value, page := 1 }

/-- `setFilters` of `useDataSource`: replaces the filters and resets `page` to 1. -/
def setFilters (s : QueryState) (filters : List (String × FilterValue)) : QueryState :=
  { s with filters := filters, page := 1 }

/-- `clearFilters` of `useDataSource`. -/
def clearFilters (s : QueryState) : QueryState :=
  { s with filters := [], queryValue := "", page := 1 }

/-- `setSort` of `useDataSource`: stores the sort and touches nothing else. -/
def setSort (s : QueryState) (sort : Option SortDefinition) : QueryState :=
  { s with sort := sort }

/-- `setSelectedView` of `useDataSource`: when the index resolves to a view,
selects it, replaces the filters with the view snapshot and resets `page` to 1. -/
def setSelectedView (views : List ViewDefinition) (s : QueryState) (index : Nat) :
    QueryState :=
  match views[index]? with
  | some v => { s with selectedView := index, filters := v.filters, page := 1 }
  | none => s

/-! ## The fetch pipeline of `useDataSource` (src/src/hooks/usePagination.ts) -/

/-- Outcome of the caller-supplied transport for one request. -/
inductive TransportResult (T : Type) where
  | ok : List T → Int → TransportResult T
  | abortError : TransportResult T
  | failure : String → TransportResult T

/-- `fetchRemoteData`: a successful response is transformed into
`{items, total}`, an `AbortError` is swallowed into `null` (no result),
any other failure is re-thrown. -/
def fetchRemoteOutcome : TransportResult T → Except String (Option (List T × Int))
  | .ok items total => .ok (some (items, total))
  | .abortError => .ok none
  | .failure e => .error e

/-- The stored state that `fetchData` updates. -/
structure DSState (T : Type) where
  items : List T
  total : Int
  loading : Bool
  firstLoad : Bool
  error : Option String
deriving DecidableEq

/-- `fetchData`: sets `loading` and clears `error` up front; a non-null result
replaces `items`/`total` and ends loading; a `null` result (cancellation)
changes nothing further; a thrown error is stored and ends loading. -/
def applyFetch (s : DSState T) (outcome : Except String (Option (List T × Int))) :
    DSState T :=
  let s1 := { s with loading := true, error := none }
  match outcome with
  | .ok (some r) =>
    { s1 with items := r.1, total := r.2, loading := false, firstLoad := false }
  | .ok none => s1
  | .error e => { s1 with error := some e, loading := false, firstLoad := false }

/-- The module-level `abortControllers` cache plus a counter naming
successive `AbortController`s. -/
structure ExecutorState where
  counter : Nat
  inflight : List (String × Nat)
  aborted : List Nat

/-- `abortRequest` followed by registering a fresh controller, as performed at
the top of `fetchRemoteData`: the outstanding controller for `endpoint` (if
any) is aborted and forgotten, then a new controller is stored under
`endpoint`. Returns the new controller's name. -/
def startFetch (ex : ExecutorState) (endpoint : String) : ExecutorState × Nat :=
  let ex1 :=
    match ex.inflight.find? (fun p => p.1 = endpoint) with
    | some p =>
      { ex with
        aborted := p.2 :: ex.aborted
        inflight := ex.inflight.filter (fun q => q.1 ≠ endpoint) }
    | none => ex
  (⟨ex1.counter + 1, (endpoint, ex1.counter) :: ex1.inflight, ex1.aborted⟩, ex1.counter)

/-! ## URLSearchParams model and the URL codec (src/unnamed/part_006) -/

/-- A `URLSearchParams` value: key/value pairs in order. -/
abbrev Params : Type := List (String × String)

/-- `params.get(k)`: the value of the first pair with key `k`, else null. -/
def paramsGet (ps : Params) (k : String) : Option String :=
  (List.find? (fun p => p.1 = k) ps).map (fun p => p.2)

/-- `params.delete(k)`: remove every pair with key `k`. -/
def paramsDelete (ps : Params) (k : String) : Params :=
  List.filter (fun p => p.1 ≠ k) ps

/-- `params.set(k, v)`: replace the first pair with key `k` in place and drop
the later ones, or append when the key is absent. -/
def paramsSet : Params → String → String → Params
  | [], k, v => [(k, v)]
  | p :: rest, k, v =>
    if p.1 = k then (k, v) :: paramsDelete rest k else p :: paramsSet rest k v

/-- `s.startsWith(t)`. -/
def jsStartsWith (s t : String) : Bool := t.data.isPrefixOf s.data

/-- JS whitespace as far as the claims need it. -/
def isJsWhitespace (c : Char) : Bool :=
  c = ' ' ∨ c = '\t' ∨ c = '\n' ∨ c = '\r'

/-- `s.trim()` — strip whitespace from both ends. -/
def jsTrim (s : String) : String :=
  ⟨((s.data.dropWhile isJsWhitespace).reverse.dropWhile isJsWhitespace).reverse⟩

/-- `key.replace("filter_", "")` on a key that starts with `"filter_"`:
JS `replace` with a string pattern replaces the leftmost occurrence, which for
such a key is the 7-character prefix. -/
def stripFilterKey (k : String) : String := ⟨k.data.drop 7⟩

/-- The optional sign at the head of a `parseInt` input. -/
def parseSign : List Char → Bool × List Char
  | '-' :: rest => (true, rest)
  | '+' :: rest => (false, rest)
  | cs => (false, cs)

/-- `parseInt(s, 10)` on the character list of `s`: skip leading whitespace,
take an optional sign and the longest leading digit run; `NaN` (modelled as
`none`) when no digit is found. -/
def parseIntChars (l : List Char) : Option Int :=
  let cs := l.dropWhile (fun c => c = ' ' ∨ c = '\t' ∨ c = '\n' ∨ c = '\r')
  let signed := parseSign cs
  let ds := signed.2.takeWhile (fun c => '0' ≤ c ∧ c ≤ '9')
  if ds.isEmpty then none
  else
    let n : Nat := ds.foldl (fun acc c => acc * 10 + (c.toNat - 48)) 0
    some (if signed.1 then -(n : Int) else (n : Int))

/-- `parseInt(s, 10)`. -/
def parseIntJS (s : String) : Option Int := parseIntChars s.data

/-- `s.split(sep)` for a one-character separator, accumulator form. -/
def splitCharAux (sep : Char) : List Char → List Char → List (List Char)
  | [], acc => [acc.reverse]
  | c :: cs, acc =>
    if c = sep then acc.reverse :: splitCharAux sep cs []
    else splitCharAux sep cs (c :: acc)

/-- `s.split(sep)` for a one-character separator. -/
def jsSplit (s : String) (sep : Char) : List String :=
  (splitCharAux sep s.data []).map (fun l => ⟨l⟩)

/-- The record returned by `parseUrlParams`. `page` is the result of
`parseInt`, so `none` models `NaN`. -/
structure ParsedState where
  page : Option Int
  sort : Option SortDefinition
  queryValue : String
  filters : List (String × FilterValue)
  viewSelected : Option String
deriving DecidableEq

/-- The sort-token parser inside `parseUrlParams`: exactly two `|`-separated
parts, a field that is truthy and trims to something truthy, and a direction
that is exactly `asc` or `desc`; the field is stored trimmed. -/
def parseSortToken (sortParam : String) : Option SortDefinition :=
  match jsSplit sortParam '|' with
  | [field, direction] =>
    if field ≠ "" ∧ jsTrim field ≠ "" then
      if direction = "asc" then some ⟨jsTrim field, .asc⟩
      else if direction = "desc" then some ⟨jsTrim field, .desc⟩
      else none
    else none
  | _ => none

/-- The filter loop of `parseUrlParams`: every `filter_`-prefixed entry is
stored under the stripped key, `JSON.parse`d when that succeeds and treated as
a `decodeURIComponent`ed string otherwise. -/
def parseFilterParams (jsonParse : String → Option FilterValue)
    (decodeURIComponent : String → String) (ps : Params) :
    List (String × FilterValue) :=
  ps.foldl
    (fun acc p =>
      if jsStartsWith p.1 "filter_" then
        objSet acc (stripFilterKey p.1)
          (match jsonParse p.2 with
           | some v => v
           | none => .str (decodeURIComponent p.2))
      else acc)
    []

/-- `parseUrlParams` from `src/unnamed/part_006`, parameterized by the
platform built-ins `JSON.parse` and `decodeURIComponent`. The
`decodeURIComponent` parameter is total here, so this function models the
executions on which the built-in does not throw; `parseUrlParamsE` below is
the fallible model in which `decodeURIComponent` may raise `URIError`, and
`parseUrlParamsE_total_dec` shows this function to be its non-throwing
restriction. -/
def parseUrlParams (jsonParse : String → Option FilterValue)
    (decodeURIComponent : String → String) (ps : Params) : ParsedState :=
  let pageStr :=
    match paramsGet ps "page" with
    | some s => if s = "" then "1" else s
    | none => "1"
  let page := parseIntJS pageStr
  let queryValue :=
    match paramsGet ps "query" with
    | some s => if s = "" then "" else decodeURIComponent s
    | none => ""
  let viewSelected := paramsGet ps "viewSelected"
  let sort :=
    match paramsGet ps "sort" with
    | some s => if s = "" then none else parseSortToken s
    | none => none
  { page := page
    sort := sort
    queryValue := queryValue
    filters := parseFilterParams jsonParse decodeURIComponent ps
    viewSelected := viewSelected }

/-- The state record handed to `serializeToUrlParams`. -/
structure UrlState where
  page : Int
  sort : Option SortDefinition
  queryValue : String
  filters : List (String × FilterValue)
  viewSelected : Option String
deriving DecidableEq

/-- The value under which one non-empty filter entry is emitted:
arrays are `JSON.stringify`ed, strings `encodeURIComponent`ed,
numbers and booleans `String(...)`ed. -/
def filterParamValue (jsonStringifyArr : List String → String)
    (encodeURIComponent : String → String) : FilterValue → Option String
  | .arr l => if l.isEmpty then none else some (jsonStringifyArr l)
  | .str t => if t = "" then none else some (encodeURIComponent t)
  | .num n => some (intToString n)
  | .bool true => some "true"
  | .bool false => some "false"
  | .null => none
  | .undefVal => none

/-- `serializeToUrlParams` from `src/unnamed/part_006`, parameterized by the
platform built-ins `JSON.stringify` (applied to string arrays only) and
`encodeURIComponent`. -/
def serializeToUrlParams (jsonStringifyArr : List String → String)
    (encodeURIComponent : String → String) (state : UrlState)
    (baseParams : Params) : Params :=
  let ps := baseParams
  let ps :=
    if 1 < state.page then paramsSet ps "page" (intToString state.page)
    else paramsDelete ps "page"
  let ps :=
    match state.sort with
    | some s => paramsSet ps "sort" (s.field ++ "|" ++ s.direction.toStr)
    | none => paramsDelete ps "sort"
  let ps :=
    if state.queryValue = "" then paramsDelete ps "query"
    else paramsSet ps "query" (encodeURIComponent state.queryValue)
  let ps := List.filter (fun p => !jsStartsWith p.1 "filter_") ps
  let ps :=
    state.filters.foldl
      (fun acc kv =>
        match filterParamValue jsonStringifyArr encodeURIComponent kv.2 with
        | some v => paramsSet acc ("filter_" ++ kv.1) v
        | none => acc)
      ps
  match state.viewSelected with
  | some v => if v = "" then paramsDelete ps "viewSelected" else paramsSet ps "viewSelected" v
  | none => paramsDelete ps "viewSelected"

/-! ### The decoder as fallible code

`decodeURIComponent` throws `URIError` on malformed percent-escapes, and
`parseUrlParams` calls it uncaught — bare for the `query` value and inside
the `catch` branch of the filter loop, where its throw propagates. The
following model makes that error path explicit: the `decodeURIComponent`
parameter returns `none` for a throw, and a throw anywhere aborts the whole
decode. -/

/-- The filter loop of `parseUrlParams` as fallible code: a `JSON.parse`
failure falls back to `decodeURIComponent`, whose own `URIError` (modelled
`none`) propagates out of the loop. -/
def parseFilterParamsEAux (jsonParse : String → Option FilterValue)
    (dec : String → Option String) :
    List (String × FilterValue) → Params → Option (List (String × FilterValue))
  | acc, [] => some acc
  | acc, p :: rest =>
    if jsStartsWith p.1 "filter_" then
      match jsonParse p.2 with
      | some v =>
        parseFilterParamsEAux jsonParse dec (objSet acc (stripFilterKey p.1) v) rest
      | none =>
        match dec p.2 with
        | some d =>
          parseFilterParamsEAux jsonParse dec
            (objSet acc (stripFilterKey p.1) (.str d)) rest
        | none => none
    else parseFilterParamsEAux jsonParse dec acc rest

/-- The filter loop of `parseUrlParams`, fallible form. -/
def parseFilterParamsE (jsonParse : String → Option FilterValue)
    (dec : String → Option String) (ps : Params) :
    Option (List (String × FilterValue)) :=
  parseFilterParamsEAux jsonParse dec [] ps

/-- `parseUrlParams` as fallible code: `none` models an uncaught throw
(`URIError` escaping from `decodeURIComponent`). -/
def parseUrlParamsE (jsonParse : String → Option FilterValue)
    (dec : String → Option String) (ps : Params) : Option ParsedState :=
  let pageStr :=
    match paramsGet ps "page" with
    | some s => if s = "" then "1" else s
    | none => "1"
  let page := parseIntJS pageStr
  match (match paramsGet ps "query" with
         | some s => if s = "" then some "" else dec s
         | none => some "") with
  | none => none
  | some queryValue =>
    let viewSelected := paramsGet ps "viewSelected"
    let sort :=
      match paramsGet ps "sort" with
      | some s => if s = "" then none else parseSortToken s
      | none => none
    match parseFilterParamsE jsonParse dec ps with
    | none => none
    | some filters =>
      some { page := page, sort := sort, queryValue := queryValue,
             filters := filters, viewSelected := viewSelected }

/-! ### Decomposition of the serializer output (used to state its structure) -/

/-- The `filter_` pairs emitted for a filters object, in order. -/
def filterPairs (jsonStringifyArr : List String → String)
    (encodeURIComponent : String → String)
    (fs : List (String × FilterValue)) : Params :=
  fs.filterMap (fun kv =>
    (filterParamValue jsonStringifyArr encodeURIComponent kv.2).map
      (fun v => ("filter_" ++ kv.1, v)))

/-- The `page` entry the serializer emits. -/
def pageSeg (s : UrlState) : Params :=
  if 1 < s.page then [("page", intToString s.page)] else []

/-- The `sort` entry the serializer emits. -/
def sortSeg (s : UrlState) : Params :=
  match s.sort with
  | some sd => [("sort", sd.field ++ "|" ++ sd.direction.toStr)]
  | none => []

/-- The `query` entry the serializer emits. -/
def querySeg (encodeURIComponent : String → String) (s : UrlState) : Params :=
  if s.queryValue = "" then [] else [("query", encodeURIComponent s.queryValue)]

/-- The `viewSelected` entry the serializer emits. -/
def viewSeg (s : UrlState) : Params :=
  match s.viewSelected with
  | some v => if v = "" then [] else [("viewSelected", v)]
  | none => []

/-- What the platform built-ins must guarantee, per filter value, for that
value to survive the URL round trip: a non-empty string must URI-encode to
something `JSON.parse` rejects and must URI-decode back; a non-empty string
array must `JSON.parse` back from its `JSON.stringify`; a number or boolean
must `JSON.parse` back from its `String(...)` form. -/
def FilterRecovers (jsonParse : String → Option FilterValue)
    (jsonStringifyArr : List String → String)
    (encodeURIComponent decodeURIComponent : String → String) :
    FilterValue → Prop
  | .str t => t ≠ "" →
      jsonParse (encodeURIComponent t) = none ∧
      decodeURIComponent (encodeURIComponent t) = t
  | .arr l => l ≠ [] → jsonParse (jsonStringifyArr l) = some (.arr l)
  | .num n => jsonParse (intToString n) = some (.num n)
  | .bool b => jsonParse (if b then "true" else "false") = some (.bool b)
  | .null => True
  | .undefVal => True

/-! ## Concrete executable models of the platform built-ins

These are used to evaluate the codec on concrete inputs. Within the theorems
the built-ins stay abstract parameters constrained by the properties the
platform guarantees. -/

/-- Upper-case hexadecimal digit. -/
def hexCharUpper (n : Nat) : Char :=
  match n with
  | 0 => '0' | 1 => '1' | 2 => '2' | 3 => '3' | 4 => '4'
  | 5 => '5' | 6 => '6' | 7 => '7' | 8 => '8' | 9 => '9'
  | 10 => 'A' | 11 => 'B' | 12 => 'C' | 13 => 'D' | 14 => 'E'
  | _ => 'F'

/-- The characters `encodeURIComponent` leaves unescaped. -/
def isUnreservedURIChar (c : Char) : Bool :=
  c.isAlpha || c.isDigit ||
    ['-', '_', '.', '!', '~', '*', Char.ofNat 39, '(', ')'].contains c

/-- UTF-8 bytes of a character. -/
def utf8BytesOfChar (c : Char) : List Nat :=
  let n := c.toNat
  if n < 128 then [n]
  else if n < 2048 then [192 + n / 64, 128 + n % 64]
  else if n < 65536 then [224 + n / 4096, 128 + (n / 64) % 64, 128 + n % 64]
  else [240 + n / 262144, 128 + (n / 4096) % 64, 128 + (n / 64) % 64, 128 + n % 64]

/-- `%XX` escape of one byte. -/
def percentByte (b : Nat) : List Char := ['%', hexCharUpper (b / 16), hexCharUpper (b % 16)]

/-- Concrete model of `encodeURIComponent`: unreserved characters pass through,
everything else is percent-encoded byte-wise. -/
def encodeURIComponentModel (s : String) : String :=
  ⟨s.data.foldr
    (fun c acc =>
      (if isUnreservedURIChar c then [c]
       else (utf8BytesOfChar c).foldr (fun b a2 => percentByte b ++ a2) []) ++ acc)
    []⟩

/-- Value of one hexadecimal digit. -/
def hexVal (c : Char) : Option Nat :=
  if '0' ≤ c ∧ c ≤ '9' then some (c.toNat - 48)
  else if 'A' ≤ c ∧ c ≤ 'F' then some (c.toNat - 55)
  else if 'a' ≤ c ∧ c ≤ 'f' then some (c.toNat - 87)
  else none

/-- Concrete model of `decodeURIComponent`, ASCII fragment: `%XX` escapes of
bytes below 128 are decoded, everything else passes through. -/
def decodeURIComponentModelAux : List Char → List Char
  | [] => []
  | '%' :: h1 :: h2 :: rest =>
    (match hexVal h1, hexVal h2 with
     | some a, some b =>
       let byte := a * 16 + b
       if byte < 128 then Char.ofNat byte :: decodeURIComponentModelAux rest
       else '%' :: h1 :: h2 :: decodeURIComponentModelAux rest
     | _, _ => '%' :: decodeURIComponentModelAux (h1 :: h2 :: rest))
  | c :: rest => c :: decodeURIComponentModelAux rest

/-- Concrete model of `decodeURIComponent` (ASCII fragment). -/
def decodeURIComponentModel (s : String) : String :=
  ⟨decodeURIComponentModelAux s.data⟩

/-- Concrete fallible model of `decodeURIComponent` (ASCII fragment): a `%`
escape with two hexadecimal digits denoting a byte below 128 decodes to that
character; any other `%` sequence raises `URIError`, modelled `none`
(multi-byte UTF-8 sequences are outside this fragment and are conservatively
mapped to the error case; no witness exercises them). -/
def decodeURIComponentModelAuxE : List Char → Option (List Char)
  | [] => some []
  | '%' :: h1 :: h2 :: rest =>
    (match hexVal h1, hexVal h2 with
     | some a, some b =>
       let byte := a * 16 + b
       if byte < 128 then
         match decodeURIComponentModelAuxE rest with
         | some l => some (Char.ofNat byte :: l)
         | none => none
       else none
     | _, _ => none)
  | '%' :: _ => none
  | c :: rest =>
    match decodeURIComponentModelAuxE rest with
    | some l => some (c :: l)
    | none => none

/-- Concrete fallible model of `decodeURIComponent` (ASCII fragment). -/
def decodeURIComponentModelE (s : String) : Option String :=
  match decodeURIComponentModelAuxE s.data with
  | some l => some (⟨l⟩ : String)
  | none => none

/-- JSON string escaping of one character. -/
def jsonEscapeChar (c : Char) : List Char :=
  if c = '"' then ['\\', '"']
  else if c = '\\' then ['\\', '\\']
  else if c = '\n' then ['\\', 'n']
  else if c = '\t' then ['\\', 't']
  else if c = '\r' then ['\\', 'r']
  else [c]

/-- A JSON string literal. -/
def jsonQuote (s : String) : String :=
  ⟨'"' :: s.data.foldr (fun c acc => jsonEscapeChar c ++ acc) ['"']⟩

/-- Concrete model of `JSON.stringify` on an array of strings. -/
def jsonStringifyArrModel (l : List String) : String :=
  "[" ++ String.intercalate "," (l.map jsonQuote) ++ "]"

/-- Parse a JSON string body after the opening quote; returns the contents and
the remainder after the closing quote. -/
def parseJsonStringBody : List Char → Option (List Char × List Char)
  | [] => none
  | '"' :: rest => some ([], rest)
  | '\\' :: e :: rest =>
    (match
        (if e = '"' then some '"'
         else if e = '\\' then some '\\'
         else if e = 'n' then some '\n'
         else if e = 't' then some '\t'
         else if e = 'r' then some '\r'
         else none),
        parseJsonStringBody rest with
     | some c, some (content, rem) => some (c :: content, rem)
     | _, _ => none)
  | c :: rest =>
    match parseJsonStringBody rest with
    | some (content, rem) => some (c :: content, rem)
    | none => none

/-- Parse the items of a JSON array of strings (fuel-indexed). -/
def parseJsonItems : Nat → List Char → Option (List String × List Char)
  | 0, _ => none
  | fuel + 1, '"' :: rest =>
    (match parseJsonStringBody rest with
     | some (content, rem) =>
       (match rem with
        | ',' :: rem2 =>
          (match parseJsonItems fuel rem2 with
           | some (items, rem3) => some ((⟨content⟩ : String) :: items, rem3)
           | none => none)
        | ']' :: rem2 => some ([(⟨content⟩ : String)], rem2)
        | _ => none)
     | none => none)
  | _, _ => none

/-- Concrete model of `JSON.parse` on the JSON fragment relevant to the codec:
the literals, integers without leading zeros, string literals and arrays of
string literals; everything else fails (throws). -/
def jsonParseModel (s : String) : Option FilterValue :=
  if s = "true" then some (.bool true)
  else if s = "false" then some (.bool false)
  else if s = "null" then some .null
  else
    match s.data with
    | '[' :: rest =>
      (match rest with
       | [']'] => some (.arr [])
       | _ =>
         match parseJsonItems rest.length rest with
         | some (items, []) => some (.arr items)
         | _ => none)
    | '"' :: rest =>
      (match parseJsonStringBody rest with
       | some (content, []) => some (.str ⟨content⟩)
       | _ => none)
    | cs =>
      let signed : Bool × List Char :=
        match cs with
        | '-' :: r => (true, r)
        | _ => (false, cs)
      let ds := signed.2
      if ds ≠ [] ∧ ds.all (fun c => '0' ≤ c ∧ c ≤ '9') ∧
          (ds.length = 1 ∨ ds.head? ≠ some '0') then
        let n : Nat := ds.foldl (fun acc c => acc * 10 + (c.toNat - 48)) 0
        some (.num (if signed.1 then -(n : Int) else (n : Int)))
      else none

/-! # Theorems -/

theorem jsCeilDiv_one_le_iff (total limit : Nat) (hl : 1 ≤ limit) :
    1 ≤ jsCeilDiv total limit ↔ 1 ≤ total := by
  unfold jsCeilDiv
  rw [Nat.one_le_div_iff (by omega)]
  omega

theorem totalPages2_pos (limit total : Nat) : 1 ≤ totalPages2 limit total := by
  unfold totalPages2
  split <;> omega

/-- **C7** (corrected): for `page ≥ 1`, `limit ≥ 1` the second `usePagination`
variant derives `totalPages = max(1, ceil(total/limit))` while the first
derives plain `ceil(total/limit)` (0 when `total = 0`, the same otherwise);
`hasPrevious = page > 1` in both; `hasNext = page < totalPages` coincides with
`page < max(1, ceil(total/limit))` in both; the label is
`"<start>-<end> of <total>"` with `start = (page-1)*limit+1`,
`end = min(page*limit, total)`, and the zero-result labels at `total = 0`. -/
theorem usePagination_derivation (page limit total : Nat)
    (hpage : 1 ≤ page) (hlimit : 1 ≤ limit) :
    totalPages2 limit total = max 1 (jsCeilDiv total limit)
    ∧ totalPages1 limit total = jsCeilDiv total limit
    ∧ (1 ≤ total → totalPages1 limit total = max 1 (jsCeilDiv total limit))
    ∧ hasPreviousP page = decide (1 < page)
    ∧ hasNext1 page limit total = decide (page < max 1 (jsCeilDiv total limit))
    ∧ hasNext2 page limit total = decide (page < max 1 (jsCeilDiv total limit))
    ∧ (1 ≤ total →
        label1 page limit total =
          natToString ((page - 1) * limit + 1) ++ "-" ++
            natToString (min (page * limit) total) ++ " of " ++ natToString total
        ∧ label2 page limit total =
          natToString ((page - 1) * limit + 1) ++ "-" ++
            natToString (min (page * limit) total) ++ " of " ++ natToString total)
    ∧ label1 page limit 0 = "" ∧ label2 page limit 0 = "0 results" := by
  have hiff := jsCeilDiv_one_le_iff total limit hlimit
  refine ⟨?_, rfl, ?_, rfl, ?_, ?_, ?_, rfl, rfl⟩
  · unfold totalPages2
    split <;> omega
  · intro ht
    unfold totalPages1
    omega
  · unfold hasNext1 totalPages1
    rw [decide_eq_decide]
    omega
  · unfold hasNext2 totalPages2
    rw [decide_eq_decide]
    split <;> omega
  · intro ht
    have ht0 : ¬ total = 0 := by omega
    constructor
    · simp only [label1, rangeLabel, if_neg ht0]
    · simp only [label2, rangeLabel, if_neg ht0]

/-- **C7 counterexample**: at `total = 0`, `limit = 20` the first variant's
`totalPages` is 0, not `max(1, ceil(total/limit)) = 1`. -/
theorem usePagination_derivation_counterexample :
    totalPages1 20 0 = 0 ∧ max 1 (jsCeilDiv 0 20) = 1
    ∧ totalPages1 20 0 ≠ max 1 (jsCeilDiv 0 20) := by decide

/-- **C7 witness**: `page = 2`, `limit = 20`, `total = 45` gives the label
`"21-40 of 45"`. -/
theorem usePagination_derivation_witness : label2 2 20 45 = "21-40 of 45" := by
  have h := usePagination_derivation 2 20 45 (by decide) (by decide)
  rw [(h.2.2.2.2.2.2.1 (by decide)).2]
  decide

/-- **C8** (corrected): the second variant's `goToPage` always invokes the
callback with `max(1, min(n, totalPages))`, which lies in `[1, totalPages]`;
the first variant's `goToPage` invokes the callback, with `n` itself, exactly
when `n` already lies in `[1, totalPages]` and otherwise does not invoke it at
all — so neither variant ever requests an out-of-range page, but only the
second clamps. -/
theorem goToPage_range (limit total : Nat) (n : Int) (hlimit : 1 ≤ limit) :
    goToPage2 limit total n = some (max 1 (min n (totalPages2 limit total)))
    ∧ (∀ m, goToPage2 limit total n = some m →
        1 ≤ m ∧ m ≤ (totalPages2 limit total : Int))
    ∧ (∀ m, goToPage1 limit total n = some m →
        1 ≤ m ∧ m ≤ (totalPages1 limit total : Int) ∧ m = n)
    ∧ (1 ≤ n → n ≤ (totalPages1 limit total : Int) → goToPage1 limit total n = some n)
    ∧ ((n < 1 ∨ (totalPages1 limit total : Int) < n) → goToPage1 limit total n = none) := by
  have htp2 := totalPages2_pos limit total
  refine ⟨rfl, ?_, ?_, ?_, ?_⟩
  · intro m hm
    unfold goToPage2 at hm
    have hm' : max 1 (min n (totalPages2 limit total : Int)) = m := by
      exact Option.some_injective _ hm
    omega
  · intro m hm
    unfold goToPage1 at hm
    split at hm
    · rename_i hcond
      have hm' : n = m := Option.some_injective _ hm
      omega
    · exact absurd hm (by simp)
  · intro h1 h2
    unfold goToPage1
    rw [if_pos ⟨h1, h2⟩]
  · intro hout
    unfold goToPage1
    rw [if_neg]
    omega

/-- **C8 counterexample**: with `totalPages = 3` (`limit = 20`, `total = 45`)
and the request `n = 0`, the first variant's `goToPage` does not invoke the
callback at all, while the claim requires an invocation with the clamped
page 1 (as the second variant performs). -/
theorem goToPage_range_counterexample :
    goToPage1 20 45 0 = none ∧ goToPage2 20 45 0 = some 1 := by decide

/-- **C8 witness**: in-range and out-of-range requests at `limit = 20`,
`total = 45`. -/
theorem goToPage_range_witness :
    goToPage1 20 45 2 = some 2 ∧ goToPage2 20 45 7 = some 3 := by
  constructor
  · exact (goToPage_range 20 45 2 (by decide)).2.2.2.1 (by decide) (by decide)
  · rw [(goToPage_range 20 45 7 (by decide)).1]
    decide

/-- **C10** (corrected): the two `usePagination` variants agree on
`totalPages`, `hasPrevious`, `hasNext` and `label` whenever `total ≥ 1`, but
diverge at `total = 0` (`totalPages` 0 versus 1, label `""` versus
`"0 results"`); their `goToPage`s agree exactly on in-range requests, while on
out-of-range requests the first stays silent and the second invokes the
callback with the clamped page. -/
theorem usePagination_variants_agree (page limit total : Nat) (n : Int)
    (hpage : 1 ≤ page) (hlimit : 1 ≤ limit) :
    (1 ≤ total → totalPages1 limit total = totalPages2 limit total
      ∧ label1 page limit total = label2 page limit total)
    ∧ hasNext1 page limit total = hasNext2 page limit total
    ∧ (total = 0 → totalPages1 limit total = 0 ∧ totalPages2 limit total = 1
        ∧ label1 page limit total = "" ∧ label2 page limit total = "0 results")
    ∧ (1 ≤ n → n ≤ (totalPages1 limit total : Int) →
        goToPage1 limit total n = goToPage2 limit total n)
    ∧ ((n < 1 ∨ (totalPages1 limit total : Int) < n) →
        goToPage1 limit total n = none
        ∧ goToPage2 limit total n = some (max 1 (min n (totalPages2 limit total)))) := by
  have hiff := jsCeilDiv_one_le_iff total limit hlimit
  have h12 : 1 ≤ total → totalPages1 limit total = totalPages2 limit total := by
    intro ht
    unfold totalPages1 totalPages2
    split <;> omega
  refine ⟨?_, ?_, ?_, ?_, ?_⟩
  · intro ht
    refine ⟨h12 ht, ?_⟩
    have ht0 : ¬ total = 0 := by omega
    simp only [label1, label2, if_neg ht0]
  · unfold hasNext1 hasNext2 totalPages1 totalPages2
    rw [decide_eq_decide]
    split <;> omega
  · intro ht
    subst ht
    refine ⟨?_, ?_, ?_, ?_⟩
    · unfold totalPages1 jsCeilDiv
      exact Nat.div_eq_of_lt (by omega)
    · unfold totalPages2
      split <;> omega
    · simp [label1]
    · simp [label2]
  · intro h1 h2
    have htp1 : 1 ≤ totalPages1 limit total := by
      by_contra hcon
      omega
    have ht : 1 ≤ total := hiff.mp htp1
    unfold goToPage1 goToPage2
    rw [if_pos ⟨h1, h2⟩, ← h12 ht]
    congr 1
    omega
  · intro hout
    constructor
    · unfold goToPage1
      rw [if_neg]
      omega
    · rfl

/-- **C10 counterexample**: at `total = 0` (`page = 1`, `limit = 10`) the two
variants disagree on both `totalPages` and `label`, so they are not
observationally equivalent. -/
theorem usePagination_variants_agree_counterexample :
    totalPages1 10 0 = 0 ∧ totalPages2 10 0 = 1
    ∧ label1 1 10 0 = "" ∧ label2 1 10 0 = "0 results" := by decide

/-- **C10 witness**: at `total = 45`, `limit = 20` the variants agree on
`totalPages` and `label`, and on the in-range request 2. -/
theorem usePagination_variants_agree_witness :
    (totalPages1 20 45 = totalPages2 20 45 ∧ label1 2 20 45 = label2 2 20 45)
    ∧ goToPage1 20 45 2 = goToPage2 20 45 2 := by
  have h := usePagination_variants_agree 2 20 45 2 (by decide) (by decide)
  exact ⟨h.1 (by decide), h.2.2.2.1 (by decide) (by decide)⟩

/-- **C3** (corrected): `setQueryValue`, `setFilter` and `setFilters`
unconditionally reset `page` to 1, but `setSort` leaves `page` unchanged even
when the value differs — it only preserves `page ≥ 1`, it does not reset. -/
theorem setters_reset_page (s : QueryState) (qv k : String) (v : FilterValue)
    (fs : List (String × FilterValue)) (srt : Option SortDefinition)
    (hpage : 1 ≤ s.page) :
    (setQueryValue s qv).page = 1
    ∧ (setFilter s k v).page = 1
    ∧ (setFilters s fs).page = 1
    ∧ (setSort s srt).page = s.page
    ∧ 1 ≤ (setSort s srt).page :=
  ⟨rfl, rfl, rfl, rfl, hpage⟩

/-- **C3 counterexample**: from a state at page 2 with no sort, `setSort` with
a genuinely changed value leaves `page` at 2 instead of resetting it to 1. -/
theorem setters_reset_page_counterexample :
    (setSort ⟨2, 50, "", [], none, 0⟩ (some ⟨"name", Direction.asc⟩)).page = 2
    ∧ (⟨2, 50, "", [], none, 0⟩ : QueryState).sort ≠ some ⟨"name", Direction.asc⟩ := by
  decide

/-- **C3 witness**: the page-1 resets and the `setSort` preservation at a
concrete state on page 3. -/
theorem setters_reset_page_witness :
    (setQueryValue ⟨3, 50, "", [], none, 0⟩ "shirt").page = 1
    ∧ (setFilter ⟨3, 50, "", [], none, 0⟩ "status" (FilterValue.str "active")).page = 1
    ∧ (setFilters ⟨3, 50, "", [], none, 0⟩ []).page = 1
    ∧ (setSort ⟨3, 50, "", [], none, 0⟩ none).page = 3
    ∧ 1 ≤ (setSort ⟨3, 50, "", [], none, 0⟩ none).page := by
  exact setters_reset_page ⟨3, 50, "", [], none, 0⟩ "shirt" "status"
    (FilterValue.str "active") [] none (by decide)

/-- **C9** (confirmed): a cancelled fetch (`AbortError`, the result of being
superseded for the same endpoint) yields no result and leaves `items`,
`total` and the error channel untouched, while any other failure is surfaced
through `error`, terminates `loading` and also leaves the previously stored
`items`/`total` unchanged; starting a new fetch for an endpoint aborts the
controller of the outstanding fetch for that endpoint. -/
theorem fetch_pipeline_atomic {T : Type} (s : DSState T) (err : String)
    (ex : ExecutorState) (endpoint : String) :
    (applyFetch s (.ok none)).items = s.items
    ∧ (applyFetch s (.ok none)).total = s.total
    ∧ (applyFetch s (.ok none)).error = none
    ∧ fetchRemoteOutcome (T := T) .abortError = .ok none
    ∧ (applyFetch s (.error err)).error = some err
    ∧ (applyFetch s (.error err)).loading = false
    ∧ (applyFetch s (.error err)).items = s.items
    ∧ (applyFetch s (.error err)).total = s.total
    ∧ (startFetch ex endpoint).2 ∈ (startFetch (startFetch ex endpoint).1 endpoint).1.aborted := by
  refine ⟨rfl, rfl, rfl, rfl, rfl, rfl, rfl, rfl, ?_⟩
  unfold startFetch
  simp

/-! ## Stable-sort toolkit for `jsSort` -/

theorem length_jsInsert (c : α → α → Int) (x : α) (l : List α) :
    (jsInsert c x l).length = l.length + 1 := by
  induction l with
  | nil => rfl
  | cons y ys ih =>
    unfold jsInsert
    split
    · simp
    · simpa using ih

theorem length_jsSort (c : α → α → Int) (l : List α) :
    (jsSort c l).length = l.length := by
  induction l with
  | nil => rfl
  | cons x xs ih =>
    unfold jsSort
    rw [length_jsInsert, ih]
    rfl

theorem perm_jsInsert (c : α → α → Int) (x : α) (l : List α) :
    (jsInsert c x l).Perm (x :: l) := by
  induction l with
  | nil => exact List.Perm.refl _
  | cons y ys ih =>
    unfold jsInsert
    split
    · exact List.Perm.refl _
    · exact (ih.cons y).trans (List.Perm.swap x y ys)

theorem perm_jsSort (c : α → α → Int) (l : List α) : (jsSort c l).Perm l := by
  induction l with
  | nil => exact List.Perm.refl _
  | cons x xs ih =>
    unfold jsSort
    exact (perm_jsInsert c x (jsSort c xs)).trans (ih.cons x)

theorem sublist_jsInsert_self (c : α → α → Int) (x : α) (l : List α) :
    l.Sublist (jsInsert c x l) := by
  induction l with
  | nil => exact List.nil_sublist _
  | cons y ys ih =>
    unfold jsInsert
    split
    · exact List.sublist_cons_self x (y :: ys)
    · exact ih.cons₂ y

theorem pair_sublist_jsInsert (c : α → α → Int) (a b : α) (l : List α)
    (hab : c a b ≤ 0) (hb : b ∈ l) : List.Sublist [a, b] (jsInsert c a l) := by
  induction l with
  | nil => cases hb
  | cons y ys ih =>
    unfold jsInsert
    split
    · exact (List.singleton_sublist.mpr hb).cons₂ a
    · rename_i hy
      rcases List.mem_cons.mp hb with hb' | hb'
      · exact absurd (hb' ▸ hab) hy
      · exact (ih hb').cons y

/-- Stability of the modelled `Array.prototype.sort`: a pair the comparator
does not order strictly the other way keeps its relative order. -/
theorem pair_sublist_jsSort (c : α → α → Int) (a b : α) (l : List α)
    (hab : c a b ≤ 0) (h : List.Sublist [a, b] l) :
    List.Sublist [a, b] (jsSort c l) := by
  induction l with
  | nil => simp at h
  | cons x xs ih =>
    unfold jsSort
    cases h with
    | cons _ h' => exact (ih h').trans (sublist_jsInsert_self c x (jsSort c xs))
    | cons₂ _ h' =>
      have hb : b ∈ jsSort c xs :=
        (perm_jsSort c xs).mem_iff.mpr (List.singleton_sublist.mp h')
      exact pair_sublist_jsInsert c a b _ hab hb

theorem pairwise_jsInsert (c : α → α → Int) (x : α) (l : List α)
    (htrans : ∀ p q r : α, c p q ≤ 0 → c q r ≤ 0 → c p r ≤ 0)
    (htotal : ∀ p q : α, c p q ≤ 0 ∨ c q p ≤ 0)
    (hl : l.Pairwise (fun p q => c p q ≤ 0)) :
    (jsInsert c x l).Pairwise (fun p q => c p q ≤ 0) := by
  induction l with
  | nil => simp [jsInsert]
  | cons y ys ih =>
    rw [List.pairwise_cons] at hl
    unfold jsInsert
    split
    · rename_i hxy
      rw [List.pairwise_cons]
      refine ⟨?_, List.pairwise_cons.mpr hl⟩
      intro z hz
      rcases List.mem_cons.mp hz with rfl | hz'
      · exact hxy
      · exact htrans x y z hxy (hl.1 z hz')
    · rename_i hxy
      rw [List.pairwise_cons]
      refine ⟨?_, ih hl.2⟩
      intro z hz
      rcases List.mem_cons.mp ((perm_jsInsert c x ys).mem_iff.mp hz) with rfl | hz'
      · rcases htotal z y with h | h
        · exact absurd h hxy
        · exact h
      · exact hl.1 z hz'

/-- With a transitive and total comparator the modelled sort produces a list
ordered by the comparator. -/
theorem pairwise_jsSort (c : α → α → Int) (l : List α)
    (htrans : ∀ p q r : α, c p q ≤ 0 → c q r ≤ 0 → c p r ≤ 0)
    (htotal : ∀ p q : α, c p q ≤ 0 ∨ c q p ≤ 0) :
    (jsSort c l).Pairwise (fun p q => c p q ≤ 0) := by
  induction l with
  | nil => simp [jsSort]
  | cons x xs ih =>
    unfold jsSort
    exact pairwise_jsInsert c x (jsSort c xs) htrans htotal ih

theorem strIncludes_empty_hay (t : String) : strIncludes "" t = t.data.isEmpty := rfl

theorem lowerStr_data_ne_nil (s : String) (h : s ≠ "") : (lowerStr s).data ≠ [] := by
  intro hcon
  apply h
  apply String.ext
  have : s.data.map Char.toLower = [] := hcon
  simpa using this

/-- **C5** (corrected): with a non-empty `queryValue` the free-text step keeps
exactly the records whose field value, run through `v || ""` and `String(...)`,
contains `queryValue` case-insensitively — so falsy field values (including
the number 0 and `false`) are replaced by `""` and never match; records
missing the field do not match; an empty `queryValue` keeps every record; and
the `"a"` over Apple/Banana/Cherry example behaves as specified. -/
theorem queryStep_free_text (queryKey queryValue : String) (items : List Item) :
    (queryValue = "" → queryStep queryKey queryValue items = items)
    ∧ (queryValue ≠ "" → queryStep queryKey queryValue items =
        items.filter (fun r =>
          strIncludes (lowerStr (jsToString (jsOrEmptyStr (getField r queryKey))))
            (lowerStr queryValue)))
    ∧ (queryValue ≠ "" → ∀ r : Item, getField r queryKey = .undefVal →
        r ∉ queryStep queryKey queryValue items)
    ∧ queryStep "name" "a"
        ([[("name", .str "Apple")], [("name", .str "Banana")],
          [("name", .str "Cherry")]] : List Item)
      = ([[("name", .str "Apple")], [("name", .str "Banana")]] : List Item) := by
  refine ⟨?_, ?_, ?_, by decide⟩
  · intro h
    unfold queryStep
    rw [if_pos h]
  · intro h
    unfold queryStep
    rw [if_neg h]
  · intro h r hr hmem
    unfold queryStep at hmem
    rw [if_neg h] at hmem
    have hpred := (List.mem_filter.mp hmem).2
    rw [hr] at hpred
    have : (lowerStr queryValue).data.isEmpty = true := hpred
    rw [List.isEmpty_iff] at this
    exact lowerStr_data_ne_nil queryValue h this

/-- **C5 counterexample**: the record `{name: 0}` has stringified field value
`"0"`, which contains the query `"0"`, yet the code drops it because the falsy
value 0 is replaced by `""` before stringification. -/
theorem queryStep_free_text_counterexample :
    queryStep "name" "0" ([[("name", JSValue.num 0)]] : List Item) = []
    ∧ strIncludes (lowerStr (jsToString (getField ([("name", JSValue.num 0)] : Item) "name")))
        (lowerStr "0") = true := by decide

/-- **C5 witness**: the filter characterization applied to the
Apple/Banana/Cherry example with query `"a"`. -/
theorem queryStep_free_text_witness :
    queryStep "name" "a"
        ([[("name", .str "Apple")], [("name", .str "Banana")],
          [("name", .str "Cherry")]] : List Item)
      = ([[("name", .str "Apple")], [("name", .str "Banana")],
          [("name", .str "Cherry")]] : List Item).filter (fun r =>
          strIncludes (lowerStr (jsToString (jsOrEmptyStr (getField r "name"))))
            (lowerStr "a")) := by
  exact (queryStep_free_text "name" "a" _).2.1 (by decide)

theorem jsSlice_spec (l : List α) (s lim : Int) (hs : 0 ≤ s) (hlim : 0 ≤ lim) :
    jsSlice l s (s + lim) = (l.drop s.toNat).take lim.toNat := by
  unfold jsSlice
  have h1 : ¬ s < 0 := by omega
  have h2 : ¬ s + lim < 0 := by omega
  simp only [if_neg h1, if_neg h2]
  by_cases hsl : (l.length : Int) ≤ s
  · have hmin1 : min s (l.length : Int) = (l.length : Int) := by omega
    have hmin2 : min (s + lim) (l.length : Int) = (l.length : Int) := by omega
    rw [hmin1, hmin2]
    have hd1 : l.drop ((l.length : Int)).toNat = [] := by
      apply List.drop_eq_nil_of_le
      omega
    have hd2 : l.drop s.toNat = [] := by
      apply List.drop_eq_nil_of_le
      omega
    rw [hd1, hd2]
    simp
  · have hmin1 : min s (l.length : Int) = s := by omega
    rw [hmin1]
    by_cases hel : s + lim ≤ (l.length : Int)
    · have hmin2 : min (s + lim) (l.length : Int) = s + lim := by omega
      rw [hmin2]
      congr 1
      omega
    · have hmin2 : min (s + lim) (l.length : Int) = (l.length : Int) := by omega
      rw [hmin2]
      rw [List.take_of_length_le, List.take_of_length_le]
      · rw [List.length_drop]
        omega
      · rw [List.length_drop]
        omega

/-- **C4** (confirmed): for valid options (`page ≥ 1`, `limit ≥ 1`),
`filterItemsLocally` reports as `total` the length of the
filtered-and-sorted sequence — equal to the record count surviving the query
and field filters, since sorting preserves length — and returns as `items`
exactly the half-open slice `[(page-1)*limit, (page-1)*limit + limit)` of that
sequence; a page past the end yields `[]` without error. -/
theorem filterItemsLocally_pagination (localeCmp : String → String → Int)
    (dateParse : JSValue → Int) (items : List Item) (o : LocalOptions)
    (hpage : 1 ≤ o.page) (hlimit : 1 ≤ o.limit) :
    (filterItemsLocally localeCmp dateParse items o).total
      = (localPipeline localeCmp dateParse items o).length
    ∧ (filterItemsLocally localeCmp dateParse items o).total
      = (applyFieldFilters o.filters (queryStep o.queryKey o.queryValue items)).length
    ∧ (filterItemsLocally localeCmp dateParse items o).items
      = ((localPipeline localeCmp dateParse items o).drop
          ((o.page - 1) * o.limit).toNat).take o.limit.toNat
    ∧ ((localPipeline localeCmp dateParse items o).length
          ≤ ((o.page - 1) * o.limit).toNat →
        (filterItemsLocally localeCmp dateParse items o).items = []) := by
  have hs : (0 : Int) ≤ (o.page - 1) * o.limit :=
    mul_nonneg (by omega) (by omega)
  have hlen : (filterItemsLocally localeCmp dateParse items o).total
      = (localPipeline localeCmp dateParse items o).length := rfl
  have hslice : (filterItemsLocally localeCmp dateParse items o).items
      = ((localPipeline localeCmp dateParse items o).drop
          ((o.page - 1) * o.limit).toNat).take o.limit.toNat := by
    show jsSlice (localPipeline localeCmp dateParse items o)
        ((o.page - 1) * o.limit) ((o.page - 1) * o.limit + o.limit) = _
    exact jsSlice_spec _ _ _ hs (by omega)
  refine ⟨hlen, ?_, hslice, ?_⟩
  · rw [hlen]
    unfold localPipeline
    cases o.sort with
    | none => rfl
    | some sd => exact length_jsSort _ _
  · intro hout
    rw [hslice, List.drop_eq_nil_of_le hout]
    simp

/-- **C4 witness**: the spec example — two items sorted ascending by price,
`page = 1`, `limit = 1` — yields the slice equation, `total = 2`, and the
empty slice at `page = 3`. -/
theorem filterItemsLocally_pagination_witness :
    (filterItemsLocally (fun _ _ => 0) (fun _ => 0)
        ([[("name", .str "B"), ("price", .num 20)],
          [("name", .str "A"), ("price", .num 10)]] : List Item)
        ⟨"name", "", [], some ⟨"price", Direction.asc⟩, 1, 1⟩).items
      = ([[("name", .str "A"), ("price", .num 10)]] : List Item)
    ∧ (filterItemsLocally (fun _ _ => 0) (fun _ => 0)
        ([[("name", .str "B"), ("price", .num 20)],
          [("name", .str "A"), ("price", .num 10)]] : List Item)
        ⟨"name", "", [], some ⟨"price", Direction.asc⟩, 1, 1⟩).total = 2
    ∧ (filterItemsLocally (fun _ _ => 0) (fun _ => 0)
        ([[("name", .str "B"), ("price", .num 20)],
          [("name", .str "A"), ("price", .num 10)]] : List Item)
        ⟨"name", "", [], some ⟨"price", Direction.asc⟩, 3, 1⟩).items = [] := by
  have h1 := filterItemsLocally_pagination (fun _ _ => 0) (fun _ => 0)
    ([[("name", .str "B"), ("price", .num 20)],
      [("name", .str "A"), ("price", .num 10)]] : List Item)
    ⟨"name", "", [], some ⟨"price", Direction.asc⟩, 1, 1⟩ (by decide) (by decide)
  have h3 := filterItemsLocally_pagination (fun _ _ => 0) (fun _ => 0)
    ([[("name", .str "B"), ("price", .num 20)],
      [("name", .str "A"), ("price", .num 10)]] : List Item)
    ⟨"name", "", [], some ⟨"price", Direction.asc⟩, 3, 1⟩ (by decide) (by decide)
  refine ⟨?_, ?_, h3.2.2.2 (by decide)⟩
  · rw [h1.2.2.1]
    decide
  · rw [h1.1]
    decide

/-- **C6** (confirmed): the sort comparator of `filterItemsLocally`, pair by
pair — missing values after present ones ascending and before them descending,
date fields by parsed timestamp, string pairs by locale comparison, number
pairs by difference, every other pair equal (0) — together with stability of
the sort (a pair the comparator ties is never reordered), sortedness of the
output under a consistent comparator, and the fact that the engine's sort step
is exactly this stable sort by this comparator. -/
theorem sort_semantics (localeCmp : String → String → Int) (dateParse : JSValue → Int)
    (field : String) (isAsc : Bool) (l : List Item) :
    (∀ a b : Item, getField a field = .undefVal → getField b field ≠ .undefVal →
        sortCompare localeCmp dateParse field isAsc a b = (if isAsc then 1 else -1)
      ∧ sortCompare localeCmp dateParse field isAsc b a = (if isAsc then -1 else 1))
    ∧ (∀ a b : Item, (field = "createdAt" ∨ field = "updatedAt") →
        getField a field ≠ .undefVal → getField b field ≠ .undefVal →
        sortCompare localeCmp dateParse field isAsc a b =
          (if isAsc then dateParse (getField a field) - dateParse (getField b field)
           else dateParse (getField b field) - dateParse (getField a field)))
    ∧ (∀ a b : Item, ∀ sa sb : String, ¬ (field = "createdAt" ∨ field = "updatedAt") →
        getField a field = .str sa → getField b field = .str sb →
        sortCompare localeCmp dateParse field isAsc a b =
          (if isAsc then localeCmp sa sb else localeCmp sb sa))
    ∧ (∀ a b : Item, ∀ na nb : Int, ¬ (field = "createdAt" ∨ field = "updatedAt") →
        getField a field = .num na → getField b field = .num nb →
        sortCompare localeCmp dateParse field isAsc a b =
          (if isAsc then na - nb else nb - na))
    ∧ (∀ a b : Item, ¬ (field = "createdAt" ∨ field = "updatedAt") →
        getField a field ≠ .undefVal → getField b field ≠ .undefVal →
        (∀ sa sb : String, ¬ (getField a field = .str sa ∧ getField b field = .str sb)) →
        (∀ na nb : Int, ¬ (getField a field = .num na ∧ getField b field = .num nb)) →
        sortCompare localeCmp dateParse field isAsc a b = 0)
    ∧ (∀ a b : Item, sortCompare localeCmp dateParse field isAsc a b ≤ 0 →
        List.Sublist [a, b] l →
        List.Sublist [a, b] (jsSort (sortCompare localeCmp dateParse field isAsc) l))
    ∧ ((∀ p q r : Item, sortCompare localeCmp dateParse field isAsc p q ≤ 0 →
          sortCompare localeCmp dateParse field isAsc q r ≤ 0 →
          sortCompare localeCmp dateParse field isAsc p r ≤ 0) →
       (∀ p q : Item, sortCompare localeCmp dateParse field isAsc p q ≤ 0 ∨
          sortCompare localeCmp dateParse field isAsc q p ≤ 0) →
       (jsSort (sortCompare localeCmp dateParse field isAsc) l).Pairwise
         (fun p q => sortCompare localeCmp dateParse field isAsc p q ≤ 0))
    ∧ (∀ (qk qv : String) (fs : List (String × FilterValue)) (dir : Direction)
          (p lim : Int),
        localPipeline localeCmp dateParse l ⟨qk, qv, fs, some ⟨field, dir⟩, p, lim⟩ =
          jsSort (sortCompare localeCmp dateParse field (dir == .asc))
            (applyFieldFilters fs (queryStep qk qv l))) := by
  refine ⟨?_, ?_, ?_, ?_, ?_, ?_, ?_, ?_⟩
  · intro a b ha hb
    constructor
    · simp [sortCompare, ha, hb]
    · simp [sortCompare, ha, hb]
  · intro a b hdate ha hb
    simp [sortCompare, ha, hb, hdate]
  · intro a b sa sb hdate hga hgb
    simp [sortCompare, hga, hgb, hdate]
  · intro a b na nb hdate hga hgb
    simp [sortCompare, hga, hgb, hdate]
  · intro a b hdate ha hb hstr hnum
    rcases hga : getField a field with sa | na | ba | _ | _ <;>
      rcases hgb : getField b field with sb | nb | bb | _ | _ <;>
        simp_all [sortCompare]
  · intro a b hab hsub
    exact pair_sublist_jsSort _ a b l hab hsub
  · intro htrans htotal
    exact pairwise_jsSort _ l htrans htotal
  · intro qk qv fs dir p lim
    rfl

theorem dateCmp_le_iff (p q : Item) :
    sortCompare (fun _ _ => 0) (fun _ => 0) "createdAt" true p q ≤ 0 ↔
      ¬ (getField p "createdAt" = .undefVal ∧ ¬ getField q "createdAt" = .undefVal) := by
  by_cases hp : getField p "createdAt" = .undefVal <;>
    by_cases hq : getField q "createdAt" = .undefVal <;>
      simp [sortCompare, hp, hq]

theorem dateCmp_trans (p q r : Item) :
    sortCompare (fun _ _ => 0) (fun _ => 0) "createdAt" true p q ≤ 0 →
    sortCompare (fun _ _ => 0) (fun _ => 0) "createdAt" true q r ≤ 0 →
    sortCompare (fun _ _ => 0) (fun _ => 0) "createdAt" true p r ≤ 0 := by
  rw [dateCmp_le_iff, dateCmp_le_iff, dateCmp_le_iff]
  tauto

theorem dateCmp_total (p q : Item) :
    sortCompare (fun _ _ => 0) (fun _ => 0) "createdAt" true p q ≤ 0 ∨
    sortCompare (fun _ _ => 0) (fun _ => 0) "createdAt" true q p ≤ 0 := by
  rw [dateCmp_le_iff, dateCmp_le_iff]
  tauto

/-- **C6 witness**: over a concrete list whose middle record has no
`createdAt`, the pair of dated records (which the constant-timestamp
comparator ties) keeps its relative order through the sort, and the sorted
output is ordered by the comparator — in particular the undated record ends
up last. -/
theorem sort_semantics_witness :
    List.Sublist
      [([("createdAt", JSValue.str "2024-01-01")] : Item),
       ([("createdAt", JSValue.str "2024-02-02")] : Item)]
      (jsSort (sortCompare (fun _ _ => 0) (fun _ => 0) "createdAt" true)
        ([[("createdAt", JSValue.str "2024-01-01")],
          [("updatedAt", JSValue.str "x")],
          [("createdAt", JSValue.str "2024-02-02")]] : List Item))
    ∧ (jsSort (sortCompare (fun _ _ => 0) (fun _ => 0) "createdAt" true)
        ([[("createdAt", JSValue.str "2024-01-01")],
          [("updatedAt", JSValue.str "x")],
          [("createdAt", JSValue.str "2024-02-02")]] : List Item)).Pairwise
        (fun p q => sortCompare (fun _ _ => 0) (fun _ => 0) "createdAt" true p q ≤ 0) := by
  have h := sort_semantics (fun _ _ => 0) (fun _ => 0) "createdAt" true
    ([[("createdAt", JSValue.str "2024-01-01")],
      [("updatedAt", JSValue.str "x")],
      [("createdAt", JSValue.str "2024-02-02")]] : List Item)
  constructor
  · exact h.2.2.2.2.2.1 _ _ (by decide) (by decide)
  · exact h.2.2.2.2.2.2.1 dateCmp_trans dateCmp_total

/-- Tolerance facts about `parseUrlParams`, within the non-throwing model:
an absent or empty `page` parameter decodes to 1, a sort token without
exactly two `|`-separated parts or with a direction outside {asc, desc}
decodes to no sort, and every `filter_`-prefixed value is first attempted as
JSON and on failure stored as the decoded string. -/
theorem parseUrlParams_tolerant (jsonParse : String → Option FilterValue)
    (decodeURIComponent : String → String) (ps : Params) :
    (paramsGet ps "page" = none →
      (parseUrlParams jsonParse decodeURIComponent ps).page = some 1)
    ∧ (paramsGet ps "page" = some "" →
      (parseUrlParams jsonParse decodeURIComponent ps).page = some 1)
    ∧ (∀ v, paramsGet ps "sort" = some v → (jsSplit v '|').length ≠ 2 →
        (parseUrlParams jsonParse decodeURIComponent ps).sort = none)
    ∧ (∀ v f d, paramsGet ps "sort" = some v → jsSplit v '|' = [f, d] →
        d ≠ "asc" → d ≠ "desc" →
        (parseUrlParams jsonParse decodeURIComponent ps).sort = none)
    ∧ (∀ key v, parseFilterParams jsonParse decodeURIComponent [(key, v)] =
        if jsStartsWith key "filter_" then
          [(stripFilterKey key,
            match jsonParse v with
            | some x => x
            | none => .str (decodeURIComponent v))]
        else []) := by
  refine ⟨?_, ?_, ?_, ?_, ?_⟩
  · intro h
    simp only [parseUrlParams, h]
    decide
  · intro h
    simp only [parseUrlParams, h]
    rfl
  · intro v hv hlen
    simp only [parseUrlParams, hv]
    by_cases hv0 : v = ""
    · rw [if_pos hv0]
    · rw [if_neg hv0]
      unfold parseSortToken
      rcases hsp : jsSplit v '|' with _ | ⟨a, _ | ⟨b, _ | ⟨c2, t2⟩⟩⟩
      · rfl
      · rfl
      · exact absurd (by rw [hsp]; rfl) hlen
      · rfl
  · intro v f d hv hsp hd1 hd2
    simp only [parseUrlParams, hv]
    by_cases hv0 : v = ""
    · rw [if_pos hv0]
    · rw [if_neg hv0]
      unfold parseSortToken
      rw [hsp]
      show (if f ≠ "" ∧ jsTrim f ≠ "" then
          (if d = "asc" then some (⟨jsTrim f, Direction.asc⟩ : SortDefinition)
           else if d = "desc" then some ⟨jsTrim f, Direction.desc⟩ else none)
        else none) = none
      rw [if_neg hd1, if_neg hd2]
      split <;> rfl
  · intro key v
    simp only [parseFilterParams, List.foldl_cons, List.foldl_nil]
    by_cases hk : jsStartsWith key "filter_"
    · rw [if_pos hk, if_pos hk]
      rfl
    · rw [if_neg hk, if_neg hk]

/-- A query value on which `decodeURIComponent` throws makes the whole decode
throw: the call at the top of `parseUrlParams` is not wrapped in any
try/catch. -/
theorem parseUrlParamsE_query_throw (jsonParse : String → Option FilterValue)
    (dec : String → Option String) (ps : Params) (v : String)
    (hv : paramsGet ps "query" = some v) (hvne : v ≠ "") (hdec : dec v = none) :
    parseUrlParamsE jsonParse dec ps = none := by
  simp only [parseUrlParamsE, hv, if_neg hvne, hdec]

theorem parseFilterParamsEAux_total (jsonParse : String → Option FilterValue)
    (dec : String → String) (ps : Params) :
    ∀ acc, parseFilterParamsEAux jsonParse (fun s => some (dec s)) acc ps
      = some (ps.foldl
          (fun a p =>
            if jsStartsWith p.1 "filter_" then
              objSet a (stripFilterKey p.1)
                (match jsonParse p.2 with
                 | some v => v
                 | none => .str (dec p.2))
            else a)
          acc) := by
  induction ps with
  | nil => intro acc; rfl
  | cons p rest ih =>
    intro acc
    rw [List.foldl_cons]
    show (if jsStartsWith p.1 "filter_" then _ else _) = _
    by_cases hp : jsStartsWith p.1 "filter_"
    · rw [if_pos hp, if_pos hp]
      cases jsonParse p.2 with
      | some v => exact ih (objSet acc (stripFilterKey p.1) v)
      | none => exact ih (objSet acc (stripFilterKey p.1) (.str (dec p.2)))
    · rw [if_neg hp, if_neg hp]
      exact ih acc

/-- On executions where `decodeURIComponent` does not throw, the fallible
decoder agrees with the total model `parseUrlParams` used elsewhere. -/
theorem parseUrlParamsE_total_dec (jsonParse : String → Option FilterValue)
    (dec : String → String) (ps : Params) :
    parseUrlParamsE jsonParse (fun s => some (dec s)) ps
      = some (parseUrlParams jsonParse dec ps) := by
  simp only [parseUrlParamsE, parseUrlParams, parseFilterParamsE, parseFilterParams]
  rw [parseFilterParamsEAux_total jsonParse dec ps []]
  rcases hq : paramsGet ps "query" with _ | s
  · rfl
  · by_cases hs : s = ""
    · simp only [if_pos hs]
    · simp only [if_neg hs]

/-- **C2** (code_bug): the claim — decoding is total and never throws, with
an absent or unknown `page` defaulting to 1 — matches the spec's intent, but
the code slips twice. Evaluated at the failing inputs: the malformed
percent-escape `"%"` (URL `query=%25`) makes `decodeURIComponent` raise
`URIError`, which `parseUrlParams` does not catch, so the whole decode
throws; and the non-numeric page `"abc"` decodes to `NaN` (`parseInt`), not
to 1. The remaining tolerance facts (sort-token fallback, JSON-first filter
values) are proved in `parseUrlParams_tolerant`. -/
theorem parseUrlParams_never_throws_code_bug :
    decodeURIComponentModelE "%" = none
    ∧ parseUrlParamsE jsonParseModel decodeURIComponentModelE [("query", "%")] = none
    ∧ (parseUrlParams jsonParseModel decodeURIComponentModel [("page", "abc")]).page
      = none
    ∧ (parseUrlParams jsonParseModel decodeURIComponentModel [("page", "abc")]).page
      ≠ some 1 := by decide

/-! ## Decimal round trip: `parseIntJS (natToString n) = some n` -/

theorem natDigitsAux_fuel (f1 : Nat) : ∀ n f2, n < f1 → n < f2 →
    natDigitsAux f1 n = natDigitsAux f2 n := by
  induction f1 with
  | zero => intro n f2 h; omega
  | succ f ih =>
    intro n f2 h1 h2
    cases f2 with
    | zero => omega
    | succ g =>
      unfold natDigitsAux
      by_cases h10 : n < 10
      · rw [if_pos h10, if_pos h10]
      · rw [if_neg h10, if_neg h10]
        have hlt : n / 10 < n := Nat.div_lt_self (by omega) (by omega)
        rw [ih (n / 10) g (by omega) (by omega)]

theorem natDigitsAux_succ (f n : Nat) :
    natDigitsAux (f + 1) n = if n < 10 then [Nat.digitChar n]
      else natDigitsAux f (n / 10) ++ [Nat.digitChar (n % 10)] := rfl

theorem natDigits_unfold (n : Nat) :
    natDigits n = if n < 10 then [Nat.digitChar n]
      else natDigits (n / 10) ++ [Nat.digitChar (n % 10)] := by
  show natDigitsAux (n + 1) n = _
  rw [natDigitsAux_succ]
  by_cases h10 : n < 10
  · rw [if_pos h10, if_pos h10]
  · rw [if_neg h10, if_neg h10]
    have hlt : n / 10 < n := Nat.div_lt_self (by omega) (by omega)
    show natDigitsAux n (n / 10) ++ _ = natDigitsAux (n / 10 + 1) (n / 10) ++ _
    rw [natDigitsAux_fuel n (n / 10) (n / 10 + 1) (by omega) (by omega)]

theorem digitChar_spec (d : Nat) (h : d < 10) :
    ('0' ≤ Nat.digitChar d ∧ Nat.digitChar d ≤ '9') ∧ (Nat.digitChar d).toNat - 48 = d := by
  interval_cases d <;> exact ⟨by decide, by decide⟩

theorem natDigits_are_digits (n : Nat) :
    ∀ c ∈ natDigits n, '0' ≤ c ∧ c ≤ '9' := by
  induction n using Nat.strong_induction_on with
  | _ n ih =>
    rw [natDigits_unfold]
    by_cases h10 : n < 10
    · rw [if_pos h10]
      intro c hc
      rw [List.mem_singleton] at hc
      subst hc
      exact (digitChar_spec n h10).1
    · rw [if_neg h10]
      intro c hc
      rcases List.mem_append.mp hc with hc' | hc'
      · exact ih (n / 10) (Nat.div_lt_self (by omega) (by omega)) c hc'
      · rw [List.mem_singleton] at hc'
        subst hc'
        exact (digitChar_spec (n % 10) (Nat.mod_lt n (by omega))).1

theorem natDigits_ne_nil (n : Nat) : natDigits n ≠ [] := by
  rw [natDigits_unfold]
  split
  · simp
  · simp

theorem natDigits_foldl (n : Nat) :
    (natDigits n).foldl (fun acc c => acc * 10 + (c.toNat - 48)) 0 = n := by
  induction n using Nat.strong_induction_on with
  | _ n ih =>
    rw [natDigits_unfold]
    by_cases h10 : n < 10
    · rw [if_pos h10]
      simp only [List.foldl_cons, List.foldl_nil]
      rw [(digitChar_spec n h10).2]
      omega
    · rw [if_neg h10]
      rw [List.foldl_append]
      rw [ih (n / 10) (Nat.div_lt_self (by omega) (by omega))]
      simp only [List.foldl_cons, List.foldl_nil]
      rw [(digitChar_spec (n % 10) (Nat.mod_lt n (by omega))).2]
      omega

theorem digit_not_special (c : Char) (hc : '0' ≤ c ∧ c ≤ '9') :
    ¬ (c = ' ' ∨ c = '\t' ∨ c = '\n' ∨ c = '\r') ∧ c ≠ '-' ∧ c ≠ '+' := by
  refine ⟨?_, ?_, ?_⟩
  · rintro (rfl | rfl | rfl | rfl) <;> revert hc <;> decide
  · rintro rfl; revert hc; decide
  · rintro rfl; revert hc; decide

theorem parseSign_not_sign (c : Char) (cs : List Char) (h1 : c ≠ '-') (h2 : c ≠ '+') :
    parseSign (c :: cs) = (false, c :: cs) := by
  unfold parseSign
  split
  · rename_i heq
    rw [List.cons.injEq] at heq
    exact absurd heq.1 h1
  · rename_i heq
    rw [List.cons.injEq] at heq
    exact absurd heq.1 h2
  · rfl

theorem parseIntJS_digit_list (l : List Char) (hne : l ≠ [])
    (hd : ∀ c ∈ l, '0' ≤ c ∧ c ≤ '9') :
    parseIntJS ⟨l⟩ = some ((l.foldl (fun acc c => acc * 10 + (c.toNat - 48)) 0 : Nat) : Int) := by
  obtain ⟨c, cs, rfl⟩ := List.exists_cons_of_ne_nil hne
  have hc := hd c (List.mem_cons_self c cs)
  have hns := digit_not_special c hc
  show parseIntChars (c :: cs) = _
  simp only [parseIntChars]
  have hdw : (c :: cs).dropWhile
      (fun ch => decide (ch = ' ' ∨ ch = '\t' ∨ ch = '\n' ∨ ch = '\r')) = c :: cs := by
    rw [List.dropWhile_cons, if_neg]
    simp only [decide_eq_true_eq]
    exact hns.1
  rw [hdw, parseSign_not_sign c cs hns.2.1 hns.2.2]
  have htw : (c :: cs).takeWhile (fun ch => decide ('0' ≤ ch ∧ ch ≤ '9')) = c :: cs := by
    rw [List.takeWhile_eq_self_iff]
    intro x hx
    simpa using hd x hx
  simp only [htw]
  rw [if_neg (by simp)]
  rfl

theorem parseIntJS_natToString (n : Nat) :
    parseIntJS (natToString n) = some (n : Int) := by
  rw [natToString, parseIntJS_digit_list (natDigits n) (natDigits_ne_nil n)
    (natDigits_are_digits n), natDigits_foldl]

theorem natToString_ne_empty (n : Nat) : natToString n ≠ "" := by
  intro h
  exact natDigits_ne_nil n (congrArg String.data h)

theorem parseIntJS_intToString (n : Int) (h : 0 ≤ n) :
    parseIntJS (intToString n) = some n := by
  unfold intToString
  rw [if_neg (by omega), parseIntJS_natToString]
  congr 1
  omega

theorem intToString_ne_empty (n : Int) (h : 0 ≤ n) : intToString n ≠ "" := by
  unfold intToString
  rw [if_neg (by omega)]
  exact natToString_ne_empty n.toNat

/-! ## URLSearchParams toolkit -/

theorem paramsSet_of_fresh (ps : Params) (k v : String)
    (h : ∀ p ∈ ps, p.1 ≠ k) : paramsSet ps k v = ps ++ [(k, v)] := by
  induction ps with
  | nil => rfl
  | cons p rest ih =>
    unfold paramsSet
    rw [if_neg (h p (List.mem_cons_self p rest))]
    rw [ih (fun q hq => h q (List.mem_cons_of_mem p hq))]
    rfl

theorem paramsDelete_of_fresh (ps : Params) (k : String)
    (h : ∀ p ∈ ps, p.1 ≠ k) : paramsDelete ps k = ps := by
  unfold paramsDelete
  rw [List.filter_eq_self]
  intro p hp
  simpa using h p hp

theorem objSet_of_fresh (fs : List (String × FilterValue)) (k : String)
    (v : FilterValue) (h : ∀ p ∈ fs, p.1 ≠ k) : objSet fs k v = fs ++ [(k, v)] := by
  induction fs with
  | nil => rfl
  | cons p rest ih =>
    unfold objSet
    rw [if_neg (h p (List.mem_cons_self p rest))]
    rw [ih (fun q hq => h q (List.mem_cons_of_mem p hq))]
    rfl

theorem paramsGet_append (ps qs : Params) (k : String) :
    paramsGet (ps ++ qs) k = (paramsGet ps k).or (paramsGet qs k) := by
  unfold paramsGet
  rw [List.find?_append]
  cases List.find? (fun p => p.1 = k) ps <;> rfl

theorem paramsGet_of_fresh (ps : Params) (k : String)
    (h : ∀ p ∈ ps, p.1 ≠ k) : paramsGet ps k = none := by
  unfold paramsGet
  rw [List.find?_eq_none.mpr]
  · rfl
  · intro p hp
    simpa using h p hp

theorem paramsGet_single (k v : String) : paramsGet [(k, v)] k = some v := by
  unfold paramsGet
  simp [List.find?]

/-! ## Structure of the serializer output on an empty base -/

theorem startsWith_filter_append (k : String) :
    jsStartsWith ("filter_" ++ k) "filter_" = true := by
  unfold jsStartsWith
  rw [List.isPrefixOf_iff_prefix, String.data_append]
  exact List.prefix_append _ _

theorem not_filter_key_ne (t k : String) (h : jsStartsWith t "filter_" = false) :
    t ≠ "filter_" ++ k := by
  intro hcon
  rw [hcon, startsWith_filter_append] at h
  cases h

theorem mem_pageSeg (s : UrlState) : ∀ p ∈ pageSeg s, p.1 = "page" := by
  unfold pageSeg
  split
  · intro p hp
    rw [List.mem_singleton] at hp
    rw [hp]
  · intro p hp
    cases hp

theorem mem_sortSeg (s : UrlState) : ∀ p ∈ sortSeg s, p.1 = "sort" := by
  unfold sortSeg
  split
  · intro p hp
    rw [List.mem_singleton] at hp
    rw [hp]
  · intro p hp
    cases hp

theorem mem_querySeg (enc : String → String) (s : UrlState) :
    ∀ p ∈ querySeg enc s, p.1 = "query" := by
  unfold querySeg
  split
  · intro p hp
    cases hp
  · intro p hp
    rw [List.mem_singleton] at hp
    rw [hp]

theorem mem_viewSeg (s : UrlState) : ∀ p ∈ viewSeg s, p.1 = "viewSelected" := by
  unfold viewSeg
  split
  · split
    · intro p hp
      cases hp
    · intro p hp
      rw [List.mem_singleton] at hp
      rw [hp]
  · intro p hp
    cases hp

theorem mem_filterPairs (jsArr : List String → String) (enc : String → String)
    (fs : List (String × FilterValue)) :
    ∀ p ∈ filterPairs jsArr enc fs, ∃ kv ∈ fs, ∃ v,
      filterParamValue jsArr enc kv.2 = some v ∧ p = ("filter_" ++ kv.1, v) := by
  intro p hp
  unfold filterPairs at hp
  rw [List.mem_filterMap] at hp
  obtain ⟨kv, hkv, hmap⟩ := hp
  cases hv : filterParamValue jsArr enc kv.2 with
  | none =>
    rw [hv] at hmap
    cases hmap
  | some v =>
    rw [hv] at hmap
    have hmap' : some (("filter_" ++ kv.1, v)) = some p := hmap
    exact ⟨kv, hkv, v, hv, (Option.some.inj hmap').symm⟩

theorem mem_filterPairs_startsWith (jsArr : List String → String)
    (enc : String → String) (fs : List (String × FilterValue)) :
    ∀ p ∈ filterPairs jsArr enc fs, jsStartsWith p.1 "filter_" = true := by
  intro p hp
  obtain ⟨kv, _, v, _, rfl⟩ := mem_filterPairs jsArr enc fs p hp
  exact startsWith_filter_append kv.1

theorem serialize_filters_fold (jsArr : List String → String)
    (enc : String → String) (fs : List (String × FilterValue)) (acc : Params)
    (hfresh : ∀ p ∈ acc, ∀ kv ∈ fs, p.1 ≠ "filter_" ++ kv.1)
    (hnd : (fs.map Prod.fst).Nodup) :
    fs.foldl
      (fun a kv =>
        match filterParamValue jsArr enc kv.2 with
        | some v => paramsSet a ("filter_" ++ kv.1) v
        | none => a)
      acc
    = acc ++ filterPairs jsArr enc fs := by
  induction fs generalizing acc with
  | nil => simp [filterPairs]
  | cons kv rest ih =>
    rw [List.map_cons, List.nodup_cons] at hnd
    rw [List.foldl_cons]
    have hfp : filterPairs jsArr enc (kv :: rest) =
        (match filterParamValue jsArr enc kv.2 with
         | some v => ("filter_" ++ kv.1, v) :: filterPairs jsArr enc rest
         | none => filterPairs jsArr enc rest) := by
      unfold filterPairs
      rw [List.filterMap_cons]
      cases filterParamValue jsArr enc kv.2 <;> rfl
    cases hval : filterParamValue jsArr enc kv.2 with
    | none =>
      rw [hfp]
      simp only [hval]
      exact ih acc (fun p hp kv' hkv' => hfresh p hp kv' (List.mem_cons_of_mem kv hkv'))
        hnd.2
    | some v =>
      rw [hfp]
      simp only [hval]
      rw [paramsSet_of_fresh acc ("filter_" ++ kv.1) v
        (fun p hp => hfresh p hp kv (List.mem_cons_self kv rest))]
      rw [ih (acc ++ [("filter_" ++ kv.1, v)]) ?_ hnd.2]
      · rw [List.append_assoc]
        rfl
      · intro p hp kv' hkv'
        rcases List.mem_append.mp hp with hp' | hp'
        · exact hfresh p hp' kv' (List.mem_cons_of_mem kv hkv')
        · rw [List.mem_singleton] at hp'
          rw [hp']
          intro hcon
          have : kv.1 = kv'.1 := by
            have hdata := congrArg String.data hcon
            rw [String.data_append, String.data_append] at hdata
            exact String.ext (List.append_cancel_left hdata)
          exact hnd.1 (this ▸ List.mem_map_of_mem Prod.fst hkv')

/-- The serializer applied to an empty base produces the five key groups in
order: `page`, `sort`, `query`, the `filter_` pairs, `viewSelected`. -/
theorem serialize_empty_structure (jsArr : List String → String)
    (enc : String → String) (s : UrlState)
    (hnd : (s.filters.map Prod.fst).Nodup) :
    serializeToUrlParams jsArr enc s [] =
      pageSeg s ++ sortSeg s ++ querySeg enc s ++ filterPairs jsArr enc s.filters
        ++ viewSeg s := by
  simp only [serializeToUrlParams]
  have e1 : (if 1 < s.page then paramsSet [] "page" (intToString s.page)
      else paramsDelete [] "page") = pageSeg s := by
    unfold pageSeg
    split <;> rfl
  rw [e1]
  have hpage_keys := mem_pageSeg s
  have e2 : (match s.sort with
      | some sd => paramsSet (pageSeg s) "sort" (sd.field ++ "|" ++ sd.direction.toStr)
      | none => paramsDelete (pageSeg s) "sort") = pageSeg s ++ sortSeg s := by
    rcases hs : s.sort with _ | sd
    · simp only [sortSeg, hs]
      rw [paramsDelete_of_fresh _ _ (fun p hp => by rw [hpage_keys p hp]; decide)]
      simp
    · simp only [sortSeg, hs]
      rw [paramsSet_of_fresh _ _ _ (fun p hp => by rw [hpage_keys p hp]; decide)]
  rw [e2]
  have h12_keys : ∀ p ∈ pageSeg s ++ sortSeg s, p.1 = "page" ∨ p.1 = "sort" := by
    intro p hp
    rcases List.mem_append.mp hp with h | h
    · exact Or.inl (hpage_keys p h)
    · exact Or.inr (mem_sortSeg s p h)
  have e3 : (if s.queryValue = "" then paramsDelete (pageSeg s ++ sortSeg s) "query"
      else paramsSet (pageSeg s ++ sortSeg s) "query" (enc s.queryValue))
      = pageSeg s ++ sortSeg s ++ querySeg enc s := by
    unfold querySeg
    split
    · rw [paramsDelete_of_fresh _ _
        (fun p hp => by rcases h12_keys p hp with h | h <;> rw [h] <;> decide)]
      simp
    · rw [paramsSet_of_fresh _ _ _
        (fun p hp => by rcases h12_keys p hp with h | h <;> rw [h] <;> decide)]
  rw [e3]
  have h123_keys : ∀ p ∈ pageSeg s ++ sortSeg s ++ querySeg enc s,
      p.1 = "page" ∨ p.1 = "sort" ∨ p.1 = "query" := by
    intro p hp
    rcases List.mem_append.mp hp with h | h
    · rcases h12_keys p h with h' | h'
      · exact Or.inl h'
      · exact Or.inr (Or.inl h')
    · exact Or.inr (Or.inr (mem_querySeg enc s p h))
  have e4 : List.filter (fun p => !jsStartsWith p.1 "filter_")
      (pageSeg s ++ sortSeg s ++ querySeg enc s)
      = pageSeg s ++ sortSeg s ++ querySeg enc s := by
    rw [List.filter_eq_self]
    intro p hp
    rcases h123_keys p hp with h | h | h <;> rw [h] <;> decide
  rw [e4]
  have e5 : (s.filters.foldl
      (fun acc kv =>
        match filterParamValue jsArr enc kv.2 with
        | some v => paramsSet acc ("filter_" ++ kv.1) v
        | none => acc)
      (pageSeg s ++ sortSeg s ++ querySeg enc s))
      = pageSeg s ++ sortSeg s ++ querySeg enc s ++ filterPairs jsArr enc s.filters := by
    apply serialize_filters_fold
    · intro p hp kv _
      apply not_filter_key_ne
      rcases h123_keys p hp with h | h | h <;> rw [h] <;> decide
    · exact hnd
  rw [e5]
  have h1234_keys : ∀ p ∈ pageSeg s ++ sortSeg s ++ querySeg enc s
      ++ filterPairs jsArr enc s.filters, p.1 ≠ "viewSelected" := by
    intro p hp
    rcases List.mem_append.mp hp with h | h
    · rcases h123_keys p h with h' | h' | h' <;> rw [h'] <;> decide
    · have := mem_filterPairs_startsWith jsArr enc s.filters p h
      intro hcon
      rw [hcon] at this
      exact absurd this (by decide)
  cases hview : s.viewSelected with
  | none =>
    simp only [viewSeg, hview]
    rw [paramsDelete_of_fresh _ _ h1234_keys]
    simp
  | some v =>
    simp only [viewSeg, hview]
    by_cases hv0 : v = ""
    · subst hv0
      simp only [if_pos rfl]
      rw [paramsDelete_of_fresh _ _ h1234_keys]
      simp
    · simp only [if_neg hv0]
      rw [paramsSet_of_fresh _ _ _ h1234_keys]

/-! ## Parse side: recovering the filters -/

theorem filterParamValue_none_iff (jsArr : List String → String)
    (enc : String → String) (v : FilterValue) :
    filterParamValue jsArr enc v = none ↔ isEmptyFilter v = true := by
  cases v with
  | str t => by_cases ht : t = "" <;> simp [filterParamValue, isEmptyFilter, ht]
  | arr l => cases l <;> simp [filterParamValue, isEmptyFilter]
  | num n => simp [filterParamValue, isEmptyFilter]
  | bool b => cases b <;> simp [filterParamValue, isEmptyFilter]
  | null => simp [filterParamValue, isEmptyFilter]
  | undefVal => simp [filterParamValue, isEmptyFilter]

theorem stripFilterKey_append (k : String) : stripFilterKey ("filter_" ++ k) = k := by
  unfold stripFilterKey
  rw [String.data_append]
  have h7 : "filter_".data = ['f', 'i', 'l', 't', 'e', 'r', '_'] := rfl
  rw [h7]
  rfl

theorem filter_value_recovers (jp : String → Option FilterValue)
    (jsArr : List String → String) (enc dec : String → String)
    (v : FilterValue) (sv : String)
    (hrec : FilterRecovers jp jsArr enc dec v)
    (hsome : filterParamValue jsArr enc v = some sv) :
    (match jp sv with
     | some x => x
     | none => FilterValue.str (dec sv)) = v := by
  cases v with
  | str t =>
    have ht : t ≠ "" := by
      intro h
      subst h
      simp [filterParamValue] at hsome
    have hsv : sv = enc t := by
      simp only [filterParamValue, if_neg ht] at hsome
      exact (Option.some.inj hsome).symm
    obtain ⟨hjp, hdec⟩ := hrec ht
    rw [hsv, hjp, hdec]
  | arr l =>
    have hl : l ≠ [] := by
      intro h
      subst h
      simp [filterParamValue] at hsome
    have hne : ¬ l.isEmpty = true := by
      simp only [List.isEmpty_iff]
      exact hl
    have hsv : sv = jsArr l := by
      simp only [filterParamValue, if_neg hne] at hsome
      exact (Option.some.inj hsome).symm
    rw [hsv, hrec hl]
  | num n =>
    have hsv : sv = intToString n := by
      simp only [filterParamValue] at hsome
      exact (Option.some.inj hsome).symm
    rw [hsv, hrec]
  | bool b =>
    cases b with
    | true =>
      have hsv : sv = "true" := by
        simp only [filterParamValue] at hsome
        exact (Option.some.inj hsome).symm
      rw [hsv]
      have hjp : jp "true" = some (FilterValue.bool true) := hrec
      rw [hjp]
    | false =>
      have hsv : sv = "false" := by
        simp only [filterParamValue] at hsome
        exact (Option.some.inj hsome).symm
      rw [hsv]
      have hjp : jp "false" = some (FilterValue.bool false) := hrec
      rw [hjp]
  | null => simp [filterParamValue] at hsome
  | undefVal => simp [filterParamValue] at hsome

theorem filterPairs_cons (jsArr : List String → String) (enc : String → String)
    (kv : String × FilterValue) (rest : List (String × FilterValue)) :
    filterPairs jsArr enc (kv :: rest) =
      (match filterParamValue jsArr enc kv.2 with
       | some v => ("filter_" ++ kv.1, v) :: filterPairs jsArr enc rest
       | none => filterPairs jsArr enc rest) := by
  unfold filterPairs
  rw [List.filterMap_cons]
  cases filterParamValue jsArr enc kv.2 <;> rfl

theorem parse_filters_fold (jp : String → Option FilterValue) (dec : String → String)
    (jsArr : List String → String) (enc : String → String)
    (fs : List (String × FilterValue)) (acc : List (String × FilterValue))
    (hrec : ∀ kv ∈ fs, FilterRecovers jp jsArr enc dec kv.2)
    (hnd : (fs.map Prod.fst).Nodup)
    (hacc : ∀ q ∈ acc, ∀ kv ∈ fs, q.1 ≠ kv.1) :
    (filterPairs jsArr enc fs).foldl
      (fun a p =>
        if jsStartsWith p.1 "filter_" then
          objSet a (stripFilterKey p.1)
            (match jp p.2 with
             | some x => x
             | none => .str (dec p.2))
        else a)
      acc
    = acc ++ cleanFilters fs := by
  induction fs generalizing acc with
  | nil => simp [filterPairs, cleanFilters]
  | cons kv rest ih =>
    rw [List.map_cons, List.nodup_cons] at hnd
    rw [filterPairs_cons]
    cases hval : filterParamValue jsArr enc kv.2 with
    | none =>
      have hempty : isEmptyFilter kv.2 = true :=
        (filterParamValue_none_iff jsArr enc kv.2).mp hval
      have hclean : cleanFilters (kv :: rest) = cleanFilters rest := by
        simp [cleanFilters, hempty]
      rw [hclean]
      exact ih acc (fun q hq => hrec q (List.mem_cons_of_mem kv hq)) hnd.2
        (fun q hq kv' hkv' => hacc q hq kv' (List.mem_cons_of_mem kv hkv'))
    | some v =>
      have hnonempty : isEmptyFilter kv.2 = false := by
        rcases h : isEmptyFilter kv.2 with _ | _
        · rfl
        · rw [← filterParamValue_none_iff jsArr enc kv.2] at h
          rw [h] at hval
          cases hval
      have hclean : cleanFilters (kv :: rest) = kv :: cleanFilters rest := by
        simp [cleanFilters, hnonempty]
      rw [hclean, List.foldl_cons]
      have hstep :
          (if jsStartsWith ("filter_" ++ kv.1) "filter_" then
            objSet acc (stripFilterKey ("filter_" ++ kv.1))
              (match jp v with
               | some x => x
               | none => .str (dec v))
          else acc) = acc ++ [(kv.1, kv.2)] := by
        rw [if_pos (by rw [startsWith_filter_append])]
        rw [stripFilterKey_append,
          filter_value_recovers jp jsArr enc dec kv.2 v
            (hrec kv (List.mem_cons_self kv rest)) hval]
        exact objSet_of_fresh acc kv.1 kv.2
          (fun q hq => hacc q hq kv (List.mem_cons_self kv rest))
      rw [hstep]
      rw [ih (acc ++ [(kv.1, kv.2)]) (fun q hq => hrec q (List.mem_cons_of_mem kv hq))
        hnd.2 ?_]
      · rw [List.append_assoc]
        rfl
      · intro q hq kv' hkv'
        rcases List.mem_append.mp hq with hq' | hq'
        · exact hacc q hq' kv' (List.mem_cons_of_mem kv hkv')
        · rw [List.mem_singleton] at hq'
          rw [hq']
          intro hcon
          exact hnd.1 (hcon ▸ List.mem_map_of_mem Prod.fst hkv')

theorem parseFilterParams_skip (jp : String → Option FilterValue)
    (dec : String → String) (seg : Params)
    (acc : List (String × FilterValue))
    (h : ∀ p ∈ seg, jsStartsWith p.1 "filter_" = false) :
    seg.foldl
      (fun a p =>
        if jsStartsWith p.1 "filter_" then
          objSet a (stripFilterKey p.1)
            (match jp p.2 with
             | some x => x
             | none => .str (dec p.2))
        else a)
      acc
    = acc := by
  induction seg generalizing acc with
  | nil => rfl
  | cons p rest ih =>
    rw [List.foldl_cons]
    rw [if_neg (by rw [h p (List.mem_cons_self p rest)]; exact Bool.false_ne_true)]
    exact ih acc (fun q hq => h q (List.mem_cons_of_mem p hq))

/-! ## Splitting the sort token -/

theorem splitCharAux_nil (sep : Char) (acc : List Char) :
    splitCharAux sep [] acc = [acc.reverse] := rfl

theorem splitCharAux_cons (sep c : Char) (cs acc : List Char) :
    splitCharAux sep (c :: cs) acc =
      if c = sep then acc.reverse :: splitCharAux sep cs []
      else splitCharAux sep cs (c :: acc) := rfl

theorem splitCharAux_no_sep (sep : Char) (ys : List Char) :
    ∀ acc, (∀ c ∈ ys, c ≠ sep) → splitCharAux sep ys acc = [acc.reverse ++ ys] := by
  induction ys with
  | nil =>
    intro acc _
    rw [splitCharAux_nil]
    simp
  | cons c cs ih =>
    intro acc h
    rw [splitCharAux_cons, if_neg (h c (List.mem_cons_self c cs))]
    rw [ih (c :: acc) (fun x hx => h x (List.mem_cons_of_mem c hx))]
    simp

theorem splitCharAux_sep_middle (sep : Char) (ys : List Char) (xs : List Char) :
    ∀ acc, (∀ c ∈ xs, c ≠ sep) →
      splitCharAux sep (xs ++ sep :: ys) acc =
        (acc.reverse ++ xs) :: splitCharAux sep ys [] := by
  induction xs with
  | nil =>
    intro acc _
    show splitCharAux sep (sep :: ys) acc = _
    rw [splitCharAux_cons, if_pos rfl]
    simp
  | cons c cs ih =>
    intro acc h
    show splitCharAux sep (c :: (cs ++ sep :: ys)) acc = _
    rw [splitCharAux_cons, if_neg (h c (List.mem_cons_self c cs))]
    rw [ih (c :: acc) (fun x hx => h x (List.mem_cons_of_mem c hx))]
    simp

theorem jsSplit_sort_token (f d : String)
    (hf : ∀ c ∈ f.data, c ≠ '|') (hd : ∀ c ∈ d.data, c ≠ '|') :
    jsSplit (f ++ "|" ++ d) '|' = [f, d] := by
  unfold jsSplit
  have hdata : (f ++ "|" ++ d).data = f.data ++ '|' :: d.data := by
    rw [String.data_append, String.data_append]
    have hbar : "|".data = ['|'] := rfl
    rw [hbar, List.append_assoc]
    rfl
  rw [hdata]
  rw [splitCharAux_sep_middle '|' d.data f.data [] hf]
  rw [splitCharAux_no_sep '|' d.data [] hd]
  rfl

/-! ## The URL round trip -/

theorem paramsGet_pageSeg (s : UrlState) :
    paramsGet (pageSeg s) "page" =
      if 1 < s.page then some (intToString s.page) else none := by
  unfold pageSeg
  split
  · exact paramsGet_single _ _
  · rfl

theorem paramsGet_sortSeg (s : UrlState) :
    paramsGet (sortSeg s) "sort" =
      match s.sort with
      | some sd => some (sd.field ++ "|" ++ sd.direction.toStr)
      | none => none := by
  unfold sortSeg
  rcases s.sort with _ | sd
  · rfl
  · exact paramsGet_single _ _

theorem paramsGet_querySeg (enc : String → String) (s : UrlState) :
    paramsGet (querySeg enc s) "query" =
      if s.queryValue = "" then none else some (enc s.queryValue) := by
  unfold querySeg
  split
  · rfl
  · exact paramsGet_single _ _

theorem paramsGet_viewSeg (s : UrlState) (hview : s.viewSelected ≠ some "") :
    paramsGet (viewSeg s) "viewSelected" = s.viewSelected := by
  rcases hv : s.viewSelected with _ | v
  · simp only [viewSeg, hv]
    rfl
  · have hvne : v ≠ "" := fun h => hview (h ▸ hv)
    simp only [viewSeg, hv, if_neg hvne]
    exact paramsGet_single _ _

theorem paramsGet_filterPairs_other (jsArr : List String → String)
    (enc : String → String) (fs : List (String × FilterValue)) (k : String)
    (hk : jsStartsWith k "filter_" = false) :
    paramsGet (filterPairs jsArr enc fs) k = none := by
  apply paramsGet_of_fresh
  intro p hp hcon
  have hsw := mem_filterPairs_startsWith jsArr enc fs p hp
  rw [hcon] at hsw
  rw [hsw] at hk
  cases hk

/-- **C1** (corrected): starting from an empty parameter set, decoding the
encoding of a URL state recovers `page` exactly (with `page = 1` omitted and
re-defaulted), the sort pair, the query text, the view name and the
normalized filters (`cleanFilters`, empty entries dropped) — provided the
platform built-ins behave as the platform guarantees on the state's
components: URI decoding inverts URI encoding on the query text, the sort
field is non-empty, trim-stable and `|`-free, filter keys are distinct, and
each filter value satisfies `FilterRecovers` — in particular a stored string
must URI-encode to something `JSON.parse` rejects, which fails for strings
like `"123"` that `JSON.parse` accepts as numbers. -/
theorem url_roundtrip (jp : String → Option FilterValue)
    (jsArr : List String → String) (enc dec : String → String) (s : UrlState)
    (hpage : 1 ≤ s.page)
    (hnd : (s.filters.map Prod.fst).Nodup)
    (hsort : ∀ sd ∈ s.sort, sd.field ≠ "" ∧ jsTrim sd.field = sd.field ∧
      ∀ c ∈ sd.field.data, c ≠ '|')
    (hq : s.queryValue ≠ "" →
      dec (enc s.queryValue) = s.queryValue ∧ enc s.queryValue ≠ "")
    (hview : s.viewSelected ≠ some "")
    (hrec : ∀ kv ∈ s.filters, FilterRecovers jp jsArr enc dec kv.2) :
    (parseUrlParams jp dec (serializeToUrlParams jsArr enc s [])).page = some s.page
    ∧ (parseUrlParams jp dec (serializeToUrlParams jsArr enc s [])).sort = s.sort
    ∧ (parseUrlParams jp dec (serializeToUrlParams jsArr enc s [])).queryValue
      = s.queryValue
    ∧ (parseUrlParams jp dec (serializeToUrlParams jsArr enc s [])).filters
      = cleanFilters s.filters
    ∧ (parseUrlParams jp dec (serializeToUrlParams jsArr enc s [])).viewSelected
      = s.viewSelected := by
  rw [serialize_empty_structure jsArr enc s hnd]
  have hA := mem_pageSeg s
  have hB := mem_sortSeg s
  have hC := mem_querySeg enc s
  have hV := mem_viewSeg s
  have hFPsw := mem_filterPairs_startsWith jsArr enc s.filters
  have hgetFP : ∀ k, jsStartsWith k "filter_" = false →
      paramsGet (filterPairs jsArr enc s.filters) k = none :=
    fun k hk => paramsGet_filterPairs_other jsArr enc s.filters k hk
  have hget :
      ∀ k, paramsGet (pageSeg s ++ sortSeg s ++ querySeg enc s
          ++ filterPairs jsArr enc s.filters ++ viewSeg s) k =
        ((((paramsGet (pageSeg s) k).or (paramsGet (sortSeg s) k)).or
          (paramsGet (querySeg enc s) k)).or
            (paramsGet (filterPairs jsArr enc s.filters) k)).or
              (paramsGet (viewSeg s) k) := by
    intro k
    rw [paramsGet_append, paramsGet_append, paramsGet_append, paramsGet_append]
  have hget_page : paramsGet (pageSeg s ++ sortSeg s ++ querySeg enc s
      ++ filterPairs jsArr enc s.filters ++ viewSeg s) "page" =
      if 1 < s.page then some (intToString s.page) else none := by
    rw [hget "page",
      paramsGet_of_fresh (sortSeg s) "page" (fun p hp => by rw [hB p hp]; decide),
      paramsGet_of_fresh (querySeg enc s) "page" (fun p hp => by rw [hC p hp]; decide),
      hgetFP "page" (by decide),
      paramsGet_of_fresh (viewSeg s) "page" (fun p hp => by rw [hV p hp]; decide),
      paramsGet_pageSeg s]
    cases h : (if 1 < s.page then some (intToString s.page) else none) <;> rfl
  have hget_sort : paramsGet (pageSeg s ++ sortSeg s ++ querySeg enc s
      ++ filterPairs jsArr enc s.filters ++ viewSeg s) "sort" =
      (match s.sort with
       | some sd => some (sd.field ++ "|" ++ sd.direction.toStr)
       | none => none) := by
    rw [hget "sort",
      paramsGet_of_fresh (pageSeg s) "sort" (fun p hp => by rw [hA p hp]; decide),
      paramsGet_of_fresh (querySeg enc s) "sort" (fun p hp => by rw [hC p hp]; decide),
      hgetFP "sort" (by decide),
      paramsGet_of_fresh (viewSeg s) "sort" (fun p hp => by rw [hV p hp]; decide),
      paramsGet_sortSeg s]
    rcases s.sort with _ | sd <;> rfl
  have hget_query : paramsGet (pageSeg s ++ sortSeg s ++ querySeg enc s
      ++ filterPairs jsArr enc s.filters ++ viewSeg s) "query" =
      if s.queryValue = "" then none else some (enc s.queryValue) := by
    rw [hget "query",
      paramsGet_of_fresh (pageSeg s) "query" (fun p hp => by rw [hA p hp]; decide),
      paramsGet_of_fresh (sortSeg s) "query" (fun p hp => by rw [hB p hp]; decide),
      hgetFP "query" (by decide),
      paramsGet_of_fresh (viewSeg s) "query" (fun p hp => by rw [hV p hp]; decide),
      paramsGet_querySeg enc s]
    cases h : (if s.queryValue = "" then none else some (enc s.queryValue)) <;> rfl
  have hget_view : paramsGet (pageSeg s ++ sortSeg s ++ querySeg enc s
      ++ filterPairs jsArr enc s.filters ++ viewSeg s) "viewSelected" =
      s.viewSelected := by
    rw [hget "viewSelected",
      paramsGet_of_fresh (pageSeg s) "viewSelected" (fun p hp => by rw [hA p hp]; decide),
      paramsGet_of_fresh (sortSeg s) "viewSelected" (fun p hp => by rw [hB p hp]; decide),
      paramsGet_of_fresh (querySeg enc s) "viewSelected"
        (fun p hp => by rw [hC p hp]; decide),
      hgetFP "viewSelected" (by decide),
      paramsGet_viewSeg s hview]
    rfl
  refine ⟨?_, ?_, ?_, ?_, ?_⟩
  · -- page
    simp only [parseUrlParams]
    rw [hget_page]
    by_cases hp1 : 1 < s.page
    · rw [if_pos hp1]
      show parseIntJS (if intToString s.page = "" then "1" else intToString s.page)
        = some s.page
      rw [if_neg (intToString_ne_empty s.page (by omega))]
      exact parseIntJS_intToString s.page (by omega)
    · rw [if_neg hp1]
      have hp : s.page = 1 := by omega
      rw [hp]
      decide
  · -- sort
    simp only [parseUrlParams]
    rw [hget_sort]
    rcases hs : s.sort with _ | sd
    · rfl
    · obtain ⟨hf1, hf2, hf3⟩ := hsort sd (Option.mem_def.mpr hs)
      obtain ⟨f, dir⟩ := sd
      have hf1' : f ≠ "" := hf1
      have hf2' : jsTrim f = f := hf2
      have hf3' : ∀ c ∈ f.data, c ≠ '|' := hf3
      have htoken : f ++ "|" ++ dir.toStr ≠ "" := by
        intro hcon
        have := congrArg String.data hcon
        rw [String.data_append, String.data_append] at this
        have hbar : "|".data = ['|'] := rfl
        rw [hbar] at this
        simp at this
      show (if f ++ "|" ++ dir.toStr = "" then none
        else parseSortToken (f ++ "|" ++ dir.toStr)) = some ⟨f, dir⟩
      rw [if_neg htoken]
      unfold parseSortToken
      have hdirbar : ∀ c ∈ dir.toStr.data, c ≠ '|' := by
        rcases dir with _ | _ <;> decide
      rw [jsSplit_sort_token f dir.toStr hf3' hdirbar]
      show (if f ≠ "" ∧ jsTrim f ≠ "" then
          (if dir.toStr = "asc"
            then some (⟨jsTrim f, Direction.asc⟩ : SortDefinition)
           else if dir.toStr = "desc"
            then some ⟨jsTrim f, Direction.desc⟩
           else none)
        else none) = some ⟨f, dir⟩
      rw [if_pos ⟨hf1', by rw [hf2']; exact hf1'⟩]
      cases dir with
      | asc =>
        rw [if_pos (show Direction.asc.toStr = "asc" from rfl)]
        rw [hf2']
      | desc =>
        rw [if_neg (show ¬ Direction.desc.toStr = "asc" by decide)]
        rw [if_pos (show Direction.desc.toStr = "desc" from rfl)]
        rw [hf2']
  · -- queryValue
    simp only [parseUrlParams]
    rw [hget_query]
    by_cases hq0 : s.queryValue = ""
    · rw [if_pos hq0, hq0]
    · obtain ⟨hdec, hne⟩ := hq hq0
      rw [if_neg hq0]
      show (if enc s.queryValue = "" then "" else dec (enc s.queryValue))
        = s.queryValue
      rw [if_neg hne, hdec]
  · -- filters
    simp only [parseUrlParams]
    show parseFilterParams jp dec _ = cleanFilters s.filters
    unfold parseFilterParams
    rw [List.foldl_append, List.foldl_append, List.foldl_append, List.foldl_append]
    rw [parseFilterParams_skip jp dec (pageSeg s) []
      (fun p hp => by rw [hA p hp]; decide)]
    rw [parseFilterParams_skip jp dec (sortSeg s) []
      (fun p hp => by rw [hB p hp]; decide)]
    rw [parseFilterParams_skip jp dec (querySeg enc s) []
      (fun p hp => by rw [hC p hp]; decide)]
    rw [parse_filters_fold jp dec jsArr enc s.filters [] hrec hnd
      (fun q hq => absurd hq (List.not_mem_nil q))]
    rw [parseFilterParams_skip jp dec (viewSeg s) _
      (fun p hp => by rw [hV p hp]; decide)]
    rfl
  · -- viewSelected
    simp only [parseUrlParams]
    exact hget_view

/-- **C1 counterexample**: the string filter value `"123"` URI-encodes to
`"123"`, which `JSON.parse` accepts as the number 123, so the round trip
returns it as a number — the original string type is not recovered. -/
theorem url_roundtrip_counterexample :
    (parseUrlParams jsonParseModel decodeURIComponentModel
      (serializeToUrlParams jsonStringifyArrModel encodeURIComponentModel
        ⟨1, none, "", [("k", FilterValue.str "123")], none⟩ [])).filters
      = [("k", FilterValue.num 123)]
    ∧ FilterValue.num 123 ≠ FilterValue.str "123" := by decide

/-- **C1 witness**: a state with page 2, an ascending name sort, the query
`"shirt"`, one filter of each kind (plus an empty one), and a selected view,
round-trips through the concrete built-in models; the empty filter entry is
dropped and everything else, type included, is recovered. -/
theorem url_roundtrip_witness :
    (parseUrlParams jsonParseModel decodeURIComponentModel
      (serializeToUrlParams jsonStringifyArrModel encodeURIComponentModel
        ⟨2, some ⟨"name", Direction.asc⟩, "shirt",
          [("status", FilterValue.str "active"), ("tags", FilterValue.arr ["a", "b"]),
           ("price", FilterValue.num 5), ("ok", FilterValue.bool true),
           ("empty", FilterValue.str "")], some "Active"⟩ [])).page = some 2
    ∧ (parseUrlParams jsonParseModel decodeURIComponentModel
      (serializeToUrlParams jsonStringifyArrModel encodeURIComponentModel
        ⟨2, some ⟨"name", Direction.asc⟩, "shirt",
          [("status", FilterValue.str "active"), ("tags", FilterValue.arr ["a", "b"]),
           ("price", FilterValue.num 5), ("ok", FilterValue.bool true),
           ("empty", FilterValue.str "")], some "Active"⟩ [])).sort
      = some ⟨"name", Direction.asc⟩
    ∧ (parseUrlParams jsonParseModel decodeURIComponentModel
      (serializeToUrlParams jsonStringifyArrModel encodeURIComponentModel
        ⟨2, some ⟨"name", Direction.asc⟩, "shirt",
          [("status", FilterValue.str "active"), ("tags", FilterValue.arr ["a", "b"]),
           ("price", FilterValue.num 5), ("ok", FilterValue.bool true),
           ("empty", FilterValue.str "")], some "Active"⟩ [])).queryValue = "shirt"
    ∧ (parseUrlParams jsonParseModel decodeURIComponentModel
      (serializeToUrlParams jsonStringifyArrModel encodeURIComponentModel
        ⟨2, some ⟨"name", Direction.asc⟩, "shirt",
          [("status", FilterValue.str "active"), ("tags", FilterValue.arr ["a", "b"]),
           ("price", FilterValue.num 5), ("ok", FilterValue.bool true),
           ("empty", FilterValue.str "")], some "Active"⟩ [])).filters
      = [("status", FilterValue.str "active"), ("tags", FilterValue.arr ["a", "b"]),
         ("price", FilterValue.num 5), ("ok", FilterValue.bool true)]
    ∧ (parseUrlParams jsonParseModel decodeURIComponentModel
      (serializeToUrlParams jsonStringifyArrModel encodeURIComponentModel
        ⟨2, some ⟨"name", Direction.asc⟩, "shirt",
          [("status", FilterValue.str "active"), ("tags", FilterValue.arr ["a", "b"]),
           ("price", FilterValue.num 5), ("ok", FilterValue.bool true),
           ("empty", FilterValue.str "")], some "Active"⟩ [])).viewSelected
      = some "Active" := by
  have h := url_roundtrip jsonParseModel jsonStringifyArrModel
    encodeURIComponentModel decodeURIComponentModel
    ⟨2, some ⟨"name", Direction.asc⟩, "shirt",
      [("status", FilterValue.str "active"), ("tags", FilterValue.arr ["a", "b"]),
       ("price", FilterValue.num 5), ("ok", FilterValue.bool true),
       ("empty", FilterValue.str "")], some "Active"⟩
    (by decide)
    (by decide)
    (by
      intro sd hsd
      rw [Option.mem_def, Option.some.injEq] at hsd
      subst hsd
      exact ⟨by decide, by decide, by decide⟩)
    (fun _ => ⟨by decide, by decide⟩)
    (by decide)
    (by
      intro kv hkv
      simp only [List.mem_cons, List.mem_singleton] at hkv
      rcases hkv with rfl | rfl | rfl | rfl | rfl | h
      · exact fun _ => ⟨by decide, by decide⟩
      · exact fun _ => by decide
      · exact (show jsonParseModel (intToString 5) = some (FilterValue.num 5) by decide)
      · exact (show jsonParseModel "true" = some (FilterValue.bool true) by decide)
      · exact fun hcon => absurd rfl hcon
      · cases h)
  exact ⟨h.1, h.2.1, h.2.2.1, by rw [h.2.2.2.1]; decide, h.2.2.2.2⟩

end PolarisListTable
